import Mathlib

/-!
Verification of the `Keyword` engine of robotframework-tools
(`src/robottools/library/keywords/__init__.py`).

The Python module is shallowly embedded below: argument values become the
inductive type `Val`, exceptions become the value type `Err`, Python dicts
become association lists `List (String × _)`, and the mutable library
instance state (current session per handler kind, session pools, current
context per handler kind) becomes the record `LibState`.  Session and
context handler classes are embedded as records carrying their metadata
and an explicit `switch` operation of type `Val → LibState → Except Err
LibState`; the concrete handler implementations are not part of the
sources under scrutiny, so where a claim depends on their semantics the
canonical behaviour is modelled from the spec (see the definitions marked
"Modelled from the spec").

`Keyword.__call__` is embedded phase by phase, keeping the source order:
explicit session switching, explicit context switching, argument-type
casting, context-variant resolution, dispatch, and the final
restore-then-reraise sequence.  Every helper function mirrors the
corresponding lines of the Python source; stateful steps return
`LibState × Except Err _` so that the state at the moment an uncaught
exception propagates stays observable.
-/

set_option synthInstance.maxSize 4096

/-- Python argument values, as far as the engine inspects them: the engine
only ever renders values with `%s` and compares session instances by
identity, so a small closed universe suffices.  Session instances are
identified by a `Nat` identity tag. -/
inductive Val where
  | str : String → Val
  | nat : Nat → Val
  | pair : Val → Val → Val
  deriving DecidableEq, Repr

/-- The `%s` rendering of a value (used by `'%s=%s' % (key, value)`). -/
def Val.render : Val → String
  | .str s => s
  | .nat n => toString n
  | .pair a b => "(" ++ a.render ++ ", " ++ b.render ++ ")"

/-- A Python exception value: its class (`kind`) and message.  `except
SomeError` clauses are modelled as a comparison of `kind`. -/
structure Err where
  kind : String
  msg : String
  deriving DecidableEq, Repr

instance {ε α : Type} [DecidableEq ε] [DecidableEq α] : DecidableEq (Except ε α) := fun a b =>
  match a, b with
  | .ok x, .ok y =>
    if h : x = y then isTrue (by rw [h]) else isFalse (fun hc => h (Except.ok.inj hc))
  | .error x, .error y =>
    if h : x = y then isTrue (by rw [h]) else isFalse (fun hc => h (Except.error.inj hc))
  | .ok _, .error _ => isFalse (fun hc => Except.noConfusion hc)
  | .error _, .ok _ => isFalse (fun hc => Except.noConfusion hc)

/-- First-match lookup in an association list (Python `d[k]` / `k in d`). -/
def lookupA {β : Type} : List (String × β) → String → Option β
  | [], _ => none
  | (k, v) :: rest, key => if k = key then some v else lookupA rest key

/-- Python `d.pop(k)`: remove the first entry with the given key, returning
its value and the remaining list, or `none` when the key is absent
(`KeyError`). -/
def popA {β : Type} : List (String × β) → String → Option (β × List (String × β))
  | [], _ => none
  | (k, v) :: rest, key =>
    if k = key then some (v, rest)
    else match popA rest key with
      | some (w, rest') => some (w, (k, v) :: rest')
      | none => none

/-- Replace the value of the first entry with the given key (the list is
unchanged when the key is absent). -/
def updateA {β : Type} : List (String × β) → String → β → List (String × β)
  | [], _, _ => []
  | (k, v) :: rest, key, w =>
    if k = key then (k, w) :: rest else (k, v) :: updateA rest key w

/-- The mutable state of a Test Library instance, as seen by the engine:
`curSession` maps a session handler's identifier name to the identity of
the currently active session instance, `pools` maps a session handler's
plural identifier name to its alias → instance mapping, and `curContext`
maps a context handler's identifier to its currently active context
name. -/
structure LibState where
  curSession : List (String × Nat)
  pools : List (String × List (String × Nat))
  curContext : List (String × String)
  deriving DecidableEq, Repr

/-- Modelled from the spec: `libinstance.contexts`, the set of currently
active context names, is the collection of each context handler kind's
current value (the handler implementations live outside the sources under
scrutiny). -/
def LibState.contexts (st : LibState) : List String :=
  st.curContext.map Prod.snd

/-- A session handler kind as consumed by the engine: `hcls.meta.identifier_name`,
`hcls.meta.plural_identifier_name`, `hcls.meta.auto_explicit`, the error
class caught by `except hcls.SessionError`, and the
`switch_<identifier>` operation looked up on the library instance. -/
structure SessionHandler where
  identifier : String
  pluralIdentifier : String
  autoExplicit : Bool
  errKind : String
  switch : Val → LibState → Except Err LibState

/-- A context handler kind as consumed by the engine: its identifier
(`hcls.__name__.lower()`), `auto_explicit` flag, the error class caught by
`except hcls.ContextError`, its declared context names, and the
`switch_<identifier>` operation. -/
structure ContextHandler where
  identifier : String
  autoExplicit : Bool
  errKind : String
  contexts : List String
  switch : Val → LibState → Except Err LibState

/-- The handler kinds registered on a Test Library instance
(`libinstance.session_handlers` and the context handler classes whose
`switch_<identifier>` methods the instance exposes). -/
structure Lib where
  sessionHandlers : List SessionHandler
  contextHandlers : List ContextHandler

/-- A reflected signature as stored by the `@keyword` decorator:
`argspec.args` (including the leading `self`-like binding),
`argspec.defaults`, `argspec.varargs` and `argspec.keywords`. -/
structure ArgSpec where
  args : List String
  defaults : List Val
  varargs : Option String
  keywords : Option String
  deriving Repr

/-- A keyword implementation function: its reflected signature and its
behaviour when invoked with the library instance, positional arguments and
named arguments.  Its own side effects happen outside the auxiliary
session/context state, so `run` reads but never writes `LibState`. -/
structure Fn where
  argspec : ArgSpec
  run : LibState → List Val → List (String × Val) → Except Err Val

/-- One entry of `func.argtypes`: the `isinstance` test and the
`argtype(arg)` conversion. -/
structure ArgType where
  isInst : Val → Bool
  cast : Val → Val

/-- The Keyword function descriptor built by the registration layer:
`func.args` (explicit override list, empty meaning absent), the base
implementation with its `func.argspec`, `func.argtypes`, the ordered
`func.contexts` variant mapping, and `func.__doc__`. -/
structure KwFunc where
  base : Fn
  args : List String
  argtypes : List ArgType
  contexts : List (String × Fn)
  doc : Option String

/-- A `Keyword` instance: display name, descriptor, owning library
instance, and the derived set of context handler kinds for which the
descriptor has context-specific implementations (`self.context_handlers`;
a Python set, embedded as a list in an implementation-defined order). -/
structure Keyword where
  name : String
  func : KwFunc
  lib : Lib
  contextHandlers : List ContextHandler

/-- Longest common prefix of two character lists, used by `dedent` to
compute the common leading whitespace margin. -/
def commonStartList : List Char → List Char → List Char
  | x :: xs, y :: ys => if x = y then x :: commonStartList xs ys else []
  | _, _ => []

/-- Longest common prefix of two strings. -/
def commonStart (a b : String) : String :=
  String.mk (commonStartList a.data b.data)

/-- `textwrap.dedent`: normalize whitespace-only lines to empty lines,
compute the common leading-whitespace margin of all remaining non-empty
lines, and strip it from every line. -/
def dedent (s : String) : String :=
  let lines := (s.splitOn "\n").map fun l =>
    if l ≠ "" ∧ l.data.all (fun c => c = ' ' ∨ c = '\t') then "" else l
  let indents := lines.filterMap fun l =>
    if l = "" then none
    else some (String.mk (l.data.takeWhile (fun c => c = ' ' ∨ c = '\t')))
  let margin := match indents with
    | [] => ""
    | i :: rest => rest.foldl commonStart i
  String.intercalate "\n" (lines.map fun l =>
    if margin.isPrefixOf l then l.drop margin.length else l)

/-- Python `doc.split('\n', 1)`: the text before the first newline and the
text after it. -/
def splitFirstLine (d : String) : String × String :=
  (String.mk (d.data.takeWhile (fun c => c ≠ '\n')),
   String.mk ((d.data.dropWhile (fun c => c ≠ '\n')).drop 1))

/-- `Keyword.__doc__`: `None` when the function has no docstring; when the
docstring contains a newline, the first line followed by the dedented
remainder; otherwise the property body falls through and Python returns
`None` implicitly. -/
def Keyword.doc (kw : Keyword) : Option String :=
  match kw.func.doc with
  | none => none
  | some d =>
    if d.data.contains '\n' then
      some ((splitFirstLine d).1 ++ "\n" ++ dedent (splitFirstLine d).2)
    else none

/-- The condition of the final `elif` of `Keyword.args`: some session
handler on the library instance, or some context handler in the Keyword's
derived set, has `auto_explicit` activated. -/
def Keyword.autoOptions (kw : Keyword) : Bool :=
  kw.lib.sessionHandlers.any (fun h => h.autoExplicit) ||
    kw.contextHandlers.any (fun h => h.autoExplicit)

/-- The defaults-zipping loop of `Keyword.args`: each positional name is
paired with its negative index into `argspec.defaults`; an `IndexError`
(the index reaching below `-len(defaults)`) yields the bare name,
otherwise `'%s=%s' % (arg, default)` is yielded. -/
def defaultedGo (defaults : List Val) (n : Nat) : Nat → List String → List String
  | _, [] => []
  | i, name :: rest =>
    (if n ≤ i + defaults.length then
        name ++ "=" ++ (defaults.getD (i + defaults.length - n) (Val.str "")).render
      else name) :: defaultedGo defaults n (i + 1) rest

/-- All positional argument entries of `Keyword.args` when
`argspec.defaults` is non-empty. -/
def defaultedArgs (posargs : List String) (defaults : List Val) : List String :=
  defaultedGo defaults posargs.length 0 posargs

/-- `Keyword.args()`: the explicit override list when present; otherwise
the entries derived from the reflected signature, with `'**options'`
appended when the function takes no `**kwargs` but some handler supports
`auto_explicit` switching. -/
def Keyword.args (kw : Keyword) : List String :=
  if kw.func.args ≠ [] then kw.func.args
  else
    let argspec := kw.func.base.argspec
    let posargs := argspec.args.drop 1
    let core :=
      if argspec.defaults ≠ [] then defaultedArgs posargs argspec.defaults
      else posargs
    core
      ++ (match argspec.varargs with
          | some v => ["*" ++ v]
          | none => [])
      ++ (match argspec.keywords with
          | some k => ["**" ++ k]
          | none => if kw.autoOptions then ["**options"] else [])

/-- `getattr(self.libinstance, identifier)` for a session handler kind: the
current session instance, raising `AttributeError` when the accessor is
missing. -/
def getCurSession (st : LibState) (id : String) : Except Err Nat :=
  match lookupA st.curSession id with
  | some n => .ok n
  | none => .error ⟨"AttributeError", id⟩

/-- `getattr(self.libinstance, identifier)` for a context handler kind. -/
def getCurContext (st : LibState) (id : String) : Except Err String :=
  match lookupA st.curContext id with
  | some c => .ok c
  | none => .error ⟨"AttributeError", id⟩

/-- `getattr(self.libinstance, plural_identifier)`: the alias → instance
mapping of a session handler kind. -/
def getPool (st : LibState) (pl : String) : Except Err (List (String × Nat)) :=
  match lookupA st.pools pl with
  | some pool => .ok pool
  | none => .error ⟨"AttributeError", pl⟩

/-- `getattr(self.libinstance, 'switch_' + identifier)` for session
handler kinds: the method of the first registered handler with that
identifier name. -/
def getSwitchSession (lib : Lib) (id : String) :
    Except Err (Val → LibState → Except Err LibState) :=
  match lib.sessionHandlers.find? (fun h => h.identifier == id) with
  | some h => .ok h.switch
  | none => .error ⟨"AttributeError", "switch_" ++ id⟩

/-- `getattr(self.libinstance, 'switch_' + identifier)` for context
handler kinds. -/
def getSwitchContext (lib : Lib) (id : String) :
    Except Err (Val → LibState → Except Err LibState) :=
  match lib.contextHandlers.find? (fun h => h.identifier == id) with
  | some h => .ok h.switch
  | none => .error ⟨"AttributeError", "switch_" ++ id⟩

/-- The explicit session switching loop of `Keyword.__call__` (its first
phase): for each session handler kind in declared order, skip unless
`auto_explicit`; skip when the identifier key is absent from `kwargs`;
otherwise pop the requested alias, read the current session, and switch.
A raised `hcls.SessionError` is captured and breaks the loop; any other
error propagates uncaught.  On success the previous session is recorded
into the restore map (after, not before, the switch).  The result carries
the final state, the remaining kwargs, the captured error if any, and the
restore map. -/
def switchSessions (lib : Lib) :
    List SessionHandler → List (String × Val) → LibState →
    List ((String × String) × Nat) →
    LibState × Except Err (List (String × Val) × Option Err × List ((String × String) × Nat))
  | [], kwargs, st, acc => (st, .ok (kwargs, none, acc))
  | h :: hs, kwargs, st, acc =>
    if h.autoExplicit = false then switchSessions lib hs kwargs st acc
    else
      match popA kwargs h.identifier with
      | none => switchSessions lib hs kwargs st acc
      | some (sname, kwargs') =>
        match getCurSession st h.identifier with
        | .error e => (st, .error e)
        | .ok previous =>
          match getSwitchSession lib h.identifier with
          | .error e => (st, .error e)
          | .ok switch =>
            match switch sname st with
            | .error e =>
              if e.kind = h.errKind then (st, .ok (kwargs', some e, acc))
              else (st, .error e)
            | .ok st' =>
              switchSessions lib hs kwargs' st'
                (acc ++ [((h.identifier, h.pluralIdentifier), previous)])

/-- The explicit context switching loop of `Keyword.__call__` (second
phase, entered only when session switching captured no error): the same
shape over the Keyword's derived context handler set, catching
`hcls.ContextError`. -/
def switchContexts (lib : Lib) :
    List ContextHandler → List (String × Val) → LibState →
    List (String × String) →
    LibState × Except Err (List (String × Val) × Option Err × List (String × String))
  | [], kwargs, st, acc => (st, .ok (kwargs, none, acc))
  | h :: hs, kwargs, st, acc =>
    if h.autoExplicit = false then switchContexts lib hs kwargs st acc
    else
      match popA kwargs h.identifier with
      | none => switchContexts lib hs kwargs st acc
      | some (ctxname, kwargs') =>
        match getCurContext st h.identifier with
        | .error e => (st, .error e)
        | .ok previous =>
          match getSwitchContext lib h.identifier with
          | .error e => (st, .error e)
          | .ok switch =>
            match switch ctxname st with
            | .error e =>
              if e.kind = h.errKind then (st, .ok (kwargs', some e, acc))
              else (st, .error e)
            | .ok st' =>
              switchContexts lib hs kwargs' st' (acc ++ [(h.identifier, previous)])

/-- The argument-type casting step: `zip(args, func.argtypes)`, casting
each argument that is not already an instance of the expected type, with
the arguments beyond the cast list passed through unchanged. -/
def castArgs : List ArgType → List Val → List Val
  | [], args => args
  | _ :: _, [] => []
  | t :: ts, a :: rest => (if t.isInst a then a else t.cast a) :: castArgs ts rest

/-- The kwargs → positional draining loop of the dispatch fallback:
`for name in self.func.argspec.args[1 + len(args):]`, popping every name
still present in `kwargs` and appending its value positionally. -/
def drainPos : List String → List (String × Val) → List Val × List (String × Val)
  | [], kwargs => ([], kwargs)
  | n :: ns, kwargs =>
    match popA kwargs n with
    | some (v, kwargs') =>
      let (vs, rest) := drainPos ns kwargs'
      (v :: vs, rest)
    | none => drainPos ns kwargs

/-- The `'key=value'` varargs synthesis of the dispatch fallback: every
remaining kwargs key that is not among `self.func.argspec.args` is popped
and rendered as a trailing positional string literal; keys that are
declared argument names stay in `kwargs`. -/
def synthVarargs (argnames : List String) :
    List (String × Val) → List Val × List (String × Val)
  | [] => ([], [])
  | (k, v) :: rest =>
    let (lits, kept) := synthVarargs argnames rest
    if argnames.contains k then (lits, (k, v) :: kept)
    else (Val.str (k ++ "=" ++ v.render) :: lits, kept)

/-- The dispatch step of `Keyword.__call__`: cast the positional
arguments, resolve the context-specific implementation by walking
`func.contexts` (a later active context overrides an earlier one), then
either invoke directly — when `self.func.argspec.keywords` is set or no
named arguments remain — or reshape the named arguments into positional
ones and invoke.  Any error the implementation raises is the captured
result. -/
def dispatchPhase (kw : Keyword) (st : LibState) (args : List Val)
    (kwargs : List (String × Val)) : Except Err Val :=
  let casted := castArgs kw.func.argtypes args
  let func := kw.func.contexts.foldl
    (fun f cg => if st.contexts.contains cg.1 then cg.2 else f) kw.func.base
  if kw.func.base.argspec.keywords.isSome || kwargs.isEmpty then
    func.run st casted kwargs
  else
    let (posargs, kwargs₁) :=
      drainPos (kw.func.base.argspec.args.drop (1 + casted.length)) kwargs
    let (varargs, kwargs₂) := synthVarargs kw.func.base.argspec.args kwargs₁
    func.run st (casted ++ posargs ++ varargs) kwargs₂

/-- The context restoration loop: for each recorded (identifier, previous
context) pair, in insertion order, look up `switch_<identifier>` and
switch back.  Nothing is caught here: the first error propagates with the
state it was raised in. -/
def restoreContextsPhase (lib : Lib) :
    List (String × String) → LibState → LibState × Except Err Unit
  | [], st => (st, .ok ())
  | (id, ctxname) :: rest, st =>
    match getSwitchContext lib id with
    | .error e => (st, .error e)
    | .ok switch =>
      match switch (Val.str ctxname) st with
      | .error e => (st, .error e)
      | .ok st' => restoreContextsPhase lib rest st'

/-- The inner scan of the session restoration loop: walk the alias →
instance pool snapshot and switch back to every alias whose stored
instance is identity-equal to the recorded previous session.  Nothing is
caught. -/
def restoreSessionAliases (lib : Lib) (id : String) (session : Nat) :
    List (String × Nat) → LibState → LibState × Except Err Unit
  | [], st => (st, .ok ())
  | (sname, sinstance) :: rest, st =>
    if sinstance = session then
      match getSwitchSession lib id with
      | .error e => (st, .error e)
      | .ok switch =>
        match switch (Val.str sname) st with
        | .error e => (st, .error e)
        | .ok st' => restoreSessionAliases lib id session rest st'
    else restoreSessionAliases lib id session rest st

/-- The session restoration loop: for each recorded ((identifier, plural
identifier), previous session) entry, in insertion order, read the current
pool and scan it for the previous instance.  Nothing is caught. -/
def restoreSessionsPhase (lib : Lib) :
    List ((String × String) × Nat) → LibState → LibState × Except Err Unit
  | [], st => (st, .ok ())
  | ((id, pl), session) :: rest, st =>
    match getPool st pl with
    | .error e => (st, .error e)
    | .ok pool =>
      match restoreSessionAliases lib id session pool st with
      | (st', .ok ()) => restoreSessionsPhase lib rest st'
      | (st', .error e) => (st', .error e)

/-- The tail of `Keyword.__call__`: restore contexts, then sessions
(uncaught errors propagate immediately), then re-raise the captured error
if one was set, otherwise return the dispatch result. -/
def finishCall (lib : Lib) (error : Option Err) (result : Option Val)
    (restoreContexts : List (String × String))
    (restoreSessions : List ((String × String) × Nat))
    (st : LibState) : LibState × Except Err Val :=
  match restoreContextsPhase lib restoreContexts st with
  | (st₁, .error e) => (st₁, .error e)
  | (st₁, .ok ()) =>
    match restoreSessionsPhase lib restoreSessions st₁ with
    | (st₂, .error e) => (st₂, .error e)
    | (st₂, .ok ()) =>
      match error with
      | some e => (st₂, .error e)
      | none =>
        match result with
        | some r => (st₂, .ok r)
        | none => (st₂, .error ⟨"UnboundLocalError", "result"⟩)

/-- `Keyword.__call__`: explicit session switching, explicit context
switching (skipped when a session error was captured), dispatch (skipped
when any switch error was captured), then the unconditional
restore-and-reraise tail.  The returned pair is the library state at the
moment the call returns or raises, together with the result or the raised
error. -/
def keywordCall (kw : Keyword) (args : List Val) (kwargs : List (String × Val))
    (st : LibState) : LibState × Except Err Val :=
  match switchSessions kw.lib kw.lib.sessionHandlers kwargs st [] with
  | (st₁, .error e) => (st₁, .error e)
  | (st₁, .ok (kwargs₁, error₁, restoreSessions)) =>
    match
      (match error₁ with
       | some _ => (st₁, Except.ok (kwargs₁, error₁, ([] : List (String × String))))
       | none => switchContexts kw.lib kw.contextHandlers kwargs₁ st₁ []) with
    | (st₂, .error e) => (st₂, .error e)
    | (st₂, .ok (kwargs₂, error₂, restoreContexts)) =>
      match error₂ with
      | some e =>
        finishCall kw.lib (some e) none restoreContexts restoreSessions st₂
      | none =>
        match dispatchPhase kw st₂ args kwargs₂ with
        | .ok v => finishCall kw.lib none (some v) restoreContexts restoreSessions st₂
        | .error e => finishCall kw.lib (some e) none restoreContexts restoreSessions st₂

/-- Modelled from the spec: the switch operation of a session handler kind
(the handler implementations live outside the sources under scrutiny).
Switching to an alias makes the instance stored under that alias in the
kind's pool the current session; an unknown alias raises the kind's
session error. -/
def canonicalSessionSwitch (id pl errKind : String) :
    Val → LibState → Except Err LibState := fun v st =>
  match v with
  | .str aname =>
    match lookupA st.pools pl with
    | none => .error ⟨errKind, "no session pool: " ++ pl⟩
    | some pool =>
      match lookupA pool aname with
      | some inst => .ok { st with curSession := updateA st.curSession id inst }
      | none => .error ⟨errKind, "unknown session: " ++ aname⟩
  | _ => .error ⟨errKind, "invalid session name"⟩

/-- Modelled from the spec: the switch operation of a context handler
kind.  Switching to one of the kind's declared context names makes it the
kind's current context; an unknown name raises the kind's context
error. -/
def canonicalContextSwitch (id errKind : String) (valid : List String) :
    Val → LibState → Except Err LibState := fun v st =>
  match v with
  | .str cname =>
    if valid.contains cname then
      .ok { st with curContext := updateA st.curContext id cname }
    else .error ⟨errKind, "unknown context: " ++ cname⟩
  | _ => .error ⟨errKind, "invalid context name"⟩

/-- A session handler whose switch operation has the canonical semantics
modelled from the spec. -/
def SessionHandler.Canonical (h : SessionHandler) : Prop :=
  h.switch = canonicalSessionSwitch h.identifier h.pluralIdentifier h.errKind

/-- A context handler whose switch operation has the canonical semantics
modelled from the spec. -/
def ContextHandler.Canonical (h : ContextHandler) : Prop :=
  h.switch = canonicalContextSwitch h.identifier h.errKind h.contexts

/-- A Keyword whose library instance carries canonically behaving handler
kinds with distinct identifier names, and whose derived context handler
set is registered on the library instance. -/
structure CanonicalSetup (kw : Keyword) : Prop where
  sess : ∀ h ∈ kw.lib.sessionHandlers, h.Canonical
  ctx : ∀ h ∈ kw.lib.contextHandlers, h.Canonical
  derivedSub : ∀ h ∈ kw.contextHandlers, h ∈ kw.lib.contextHandlers
  sessIds : (kw.lib.sessionHandlers.map SessionHandler.identifier).Nodup
  ctxIds : (kw.lib.contextHandlers.map ContextHandler.identifier).Nodup

/-- The library-instance state invariant the handler layer maintains: each
handler kind's current-value accessor is defined, each session kind's
current instance is registered in its pool under some alias, pool aliases
and state keys are unambiguous, and each derived context kind's current
context is one of its declared names. -/
structure WfState (kw : Keyword) (st : LibState) : Prop where
  sessKeys : (st.curSession.map Prod.fst).Nodup
  ctxKeys : (st.curContext.map Prod.fst).Nodup
  sess : ∀ h ∈ kw.lib.sessionHandlers, ∃ cur pool,
    lookupA st.curSession h.identifier = some cur ∧
    lookupA st.pools h.pluralIdentifier = some pool ∧
    (pool.map Prod.fst).Nodup ∧ ∃ a, (a, cur) ∈ pool
  ctx : ∀ h ∈ kw.contextHandlers, ∃ cur,
    lookupA st.curContext h.identifier = some cur ∧ cur ∈ h.contexts

/-- What a successfully completed session switching pass guarantees, for
canonically behaving handlers: the pools and context state are untouched,
the recorded restore entries carry the original current sessions of
pairwise distinct handler kinds drawn from the processed list, and only
the recorded kinds' current sessions changed. -/
structure SessPhaseOut (hs : List SessionHandler) (kwargs : List (String × Val))
    (st st₁ : LibState) (k₁ : List (String × Val))
    (upd : List ((String × String) × Nat)) : Prop where
  pools : st₁.pools = st.pools
  ctx : st₁.curContext = st.curContext
  keys : st₁.curSession.map Prod.fst = st.curSession.map Prod.fst
  ids : (upd.map (fun en => en.1.1)).Nodup
  inKw : ∀ en ∈ upd, en.1.1 ∈ kwargs.map Prod.fst
  handler : ∀ en ∈ upd, ∃ h ∈ hs, h.identifier = en.1.1 ∧ h.pluralIdentifier = en.1.2
  prevs : ∀ en ∈ upd, lookupA st.curSession en.1.1 = some en.2
  outside : ∀ id, id ∉ upd.map (fun en => en.1.1) →
    lookupA st₁.curSession id = lookupA st.curSession id
  keysLeft : (k₁.map Prod.fst).Nodup

/-- What a successfully completed context switching pass guarantees, for
canonically behaving handlers. -/
structure CtxPhaseOut (hs : List ContextHandler) (kwargs : List (String × Val))
    (st st₁ : LibState) (k₁ : List (String × Val))
    (upd : List (String × String)) : Prop where
  pools : st₁.pools = st.pools
  sess : st₁.curSession = st.curSession
  keys : st₁.curContext.map Prod.fst = st.curContext.map Prod.fst
  ids : (upd.map Prod.fst).Nodup
  inKw : ∀ en ∈ upd, en.1 ∈ kwargs.map Prod.fst
  handler : ∀ en ∈ upd, ∃ h ∈ hs, h.identifier = en.1
  prevs : ∀ en ∈ upd, lookupA st.curContext en.1 = some en.2
  outside : ∀ id, id ∉ upd.map Prod.fst →
    lookupA st₁.curContext id = lookupA st.curContext id
  keysLeft : (k₁.map Prod.fst).Nodup

/-- Modelled from the spec's words for claim C6 only: a dispatch step
whose direct-invocation test reads the *resolved* implementation's
reflected signature instead of `self.func.argspec`.  Everything else is
the dispatch step of the source. -/
def dispatchPhaseC6spec (kw : Keyword) (st : LibState) (args : List Val)
    (kwargs : List (String × Val)) : Except Err Val :=
  let casted := castArgs kw.func.argtypes args
  let func := kw.func.contexts.foldl
    (fun f cg => if st.contexts.contains cg.1 then cg.2 else f) kw.func.base
  if func.argspec.keywords.isSome || kwargs.isEmpty then
    func.run st casted kwargs
  else
    let (posargs, kwargs₁) :=
      drainPos (kw.func.base.argspec.args.drop (1 + casted.length)) kwargs
    let (varargs, kwargs₂) := synthVarargs kw.func.base.argspec.args kwargs₁
    func.run st (casted ++ posargs ++ varargs) kwargs₂

/-- Modelled from the spec's words for claim C6 only: `Keyword.__call__`
with the dispatch decision taken on the resolved implementation's
signature. -/
def keywordCallC6spec (kw : Keyword) (args : List Val) (kwargs : List (String × Val))
    (st : LibState) : LibState × Except Err Val :=
  match switchSessions kw.lib kw.lib.sessionHandlers kwargs st [] with
  | (st₁, .error e) => (st₁, .error e)
  | (st₁, .ok (kwargs₁, error₁, restoreSessions)) =>
    match
      (match error₁ with
       | some _ => (st₁, Except.ok (kwargs₁, error₁, ([] : List (String × String))))
       | none => switchContexts kw.lib kw.contextHandlers kwargs₁ st₁ []) with
    | (st₂, .error e) => (st₂, .error e)
    | (st₂, .ok (kwargs₂, error₂, restoreContexts)) =>
      match error₂ with
      | some e =>
        finishCall kw.lib (some e) none restoreContexts restoreSessions st₂
      | none =>
        match dispatchPhaseC6spec kw st₂ args kwargs₂ with
        | .ok v => finishCall kw.lib none (some v) restoreContexts restoreSessions st₂
        | .error e => finishCall kw.lib (some e) none restoreContexts restoreSessions st₂

/-- Claim C6 as stated: every call behaves as if the direct-or-reshape
decision were taken on the resolved implementation's reflected
signature. -/
def claimC6Prop : Prop :=
  ∀ (kw : Keyword) (args : List Val) (kwargs : List (String × Val)) (st : LibState),
    keywordCall kw args kwargs st = keywordCallC6spec kw args kwargs st

/-- Claim C7 as stated, at the level of the reshape helpers used by the
dispatch step: whenever the implementation declares no variadic-keyword
parameter and named arguments remain, the reshape is claimed to turn
*every* key still left after the positional drain into a trailing
`"key=value"` literal, so that no named arguments are passed on. -/
def claimC7Prop : Prop :=
  ∀ (argnames : List String) (args : List Val) (kwargs : List (String × Val)),
    kwargs ≠ [] →
    (synthVarargs argnames (drainPos (argnames.drop (1 + args.length)) kwargs).2).2 = []

/-- Claim C8 as stated: without an explicit override, `args()` yields the
synthesized `"**options"` entry exactly when *neither* variadic form is
declared and some relevant handler kind has `auto_explicit`. -/
def claimC8Prop : Prop :=
  ∀ kw : Keyword, kw.func.args = [] →
    ("**options" ∈ Keyword.args kw ↔
      (kw.func.base.argspec.varargs = none ∧ kw.func.base.argspec.keywords = none ∧
        kw.autoOptions = true))

/-- Claim C5 as stated: whenever an `auto_explicit` session handler kind's
switch raises its session error during the switching phase, the kind's
previous session is claimed to have been recorded in the restore map
before the attempt. -/
def claimC5Prop : Prop :=
  ∀ (lib : Lib) (h : SessionHandler) (hs : List SessionHandler)
    (kwargs : List (String × Val)) (st : LibState)
    (acc : List ((String × String) × Nat))
    (st' : LibState) (kwargs' : List (String × Val)) (e : Err)
    (accOut : List ((String × String) × Nat)),
    h.autoExplicit = true →
    (popA kwargs h.identifier).isSome →
    switchSessions lib (h :: hs) kwargs st acc = (st', .ok (kwargs', some e, accOut)) →
    e.kind = h.errKind →
    (h.identifier, h.pluralIdentifier) ∈ accOut.map Prod.fst

/-- Fixture: an implementation with three positional parameters, two
defaults and a variadic-keyword parameter (the argument-spec example of
the spec). -/
def exArgsFn : Fn :=
  ⟨⟨["self", "x", "y", "z"], [Val.nat 1, Val.nat 2], none, some "options"⟩,
   fun _ _ _ => .ok (Val.nat 0)⟩

/-- Fixture: a Keyword wrapping `exArgsFn` with no override list. -/
def exArgsKw : Keyword := ⟨"Example KW", ⟨exArgsFn, [], [], [], none⟩, ⟨[], []⟩, []⟩

/-- Fixture: a Keyword whose function carries a single-line docstring. -/
def exDocKw : Keyword :=
  ⟨"Doc KW", ⟨exArgsFn, [], [], [], some "Single line docstring."⟩, ⟨[], []⟩, []⟩

/-- Fixture: an `auto_explicit` session handler kind whose switch
operation is irrelevant to argument-spec introspection. -/
def c8Sess : SessionHandler :=
  ⟨"connection", "connections", true, "ConnectionError", fun _ st => .ok st⟩

/-- Fixture: a Keyword with a variadic-positional but no variadic-keyword
parameter, on a library with an `auto_explicit` session handler. -/
def c8Kw : Keyword :=
  ⟨"C8 KW",
   ⟨⟨⟨["self", "x"], [], some "rest", none⟩, fun _ _ _ => .ok (Val.nat 0)⟩,
    [], [], [], none⟩,
   ⟨[c8Sess], []⟩, []⟩

/-- Fixture: a base implementation that accepts variadic keywords. -/
def c6Base : Fn :=
  ⟨⟨["self"], [], none, some "kwargs"⟩,
   fun _ _ kws => .ok (Val.nat (kws.length + 10))⟩

/-- Fixture: a context variant without variadic-keyword support, returning
the shape of the arguments it was invoked with. -/
def c6Var : Fn :=
  ⟨⟨["self"], [], none, none⟩,
   fun _ pos kws => .ok (Val.pair (Val.nat pos.length) (Val.nat kws.length))⟩

/-- Fixture: a Keyword with one context variant for context `special`. -/
def c6Kw : Keyword :=
  ⟨"C6 KW", ⟨c6Base, [], [], [("special", c6Var)], none⟩, ⟨[], []⟩, []⟩

/-- Fixture: a state in which context `special` is active. -/
def c6St : LibState := ⟨[], [], [("mode", "special")]⟩

/-- Fixture: an implementation with two positional parameters, no variadic
forms, returning the shape of the arguments it was invoked with. -/
def c7Fn : Fn :=
  ⟨⟨["self", "x", "y"], [], none, none⟩,
   fun _ pos kws => .ok (Val.pair (Val.nat pos.length) (Val.nat kws.length))⟩

/-- Fixture: a Keyword wrapping `c7Fn` on an empty library. -/
def c7Kw : Keyword := ⟨"C7 KW", ⟨c7Fn, [], [], [], none⟩, ⟨[], []⟩, []⟩

/-- Fixture: an empty library state. -/
def c7St : LibState := ⟨[], [], []⟩

/-- Fixture: a canonically behaving `auto_explicit` session handler
kind. -/
def wSess : SessionHandler :=
  ⟨"connection", "connections", true, "ConnectionError",
   canonicalSessionSwitch "connection" "connections" "ConnectionError"⟩

/-- Fixture: a canonically behaving `auto_explicit` context handler
kind. -/
def wCtx : ContextHandler :=
  ⟨"mode", true, "ModeError", ["normal", "special"],
   canonicalContextSwitch "mode" "ModeError" ["normal", "special"]⟩

/-- Fixture: a library instance with one session kind and one context
kind. -/
def wLib : Lib := ⟨[wSess], [wCtx]⟩

/-- Fixture: an implementation that succeeds. -/
def wFnOk : Fn :=
  ⟨⟨["self", "x"], [], none, some "kwargs"⟩, fun _ _ _ => .ok (Val.nat 7)⟩

/-- Fixture: an implementation that raises a `ValueError`. -/
def wFnBad : Fn :=
  ⟨⟨["self", "x"], [], none, some "kwargs"⟩,
   fun _ _ _ => .error ⟨"ValueError", "boom"⟩⟩

/-- Fixture: a Keyword (succeeding implementation) on `wLib`, with `wCtx`
in its derived context handler set. -/
def wKw : Keyword := ⟨"W KW", ⟨wFnOk, [], [], [], none⟩, wLib, [wCtx]⟩

/-- Fixture: a Keyword (raising implementation) on `wLib`. -/
def wKwBad : Keyword := ⟨"W KW Bad", ⟨wFnBad, [], [], [], none⟩, wLib, [wCtx]⟩

/-- Fixture: a well-formed library state: session `A` (instance 1) is
current, the pool holds `A` and `B`, and context `normal` is active. -/
def wSt : LibState :=
  ⟨[("connection", 1)], [("connections", [("A", 1), ("B", 2)])], [("mode", "normal")]⟩

/-- Fixture: a call requesting session `B` and context `special`. -/
def wKwargs : List (String × Val) :=
  [("connection", Val.str "B"), ("mode", Val.str "special")]

/-- Fixture: a context handler whose switch operation always raises an
error that is not its own context error kind (a restoration-phase
failure). -/
def c3CtxBad : ContextHandler :=
  ⟨"mode", true, "ModeError", ["normal"],
   fun _ _ => .error ⟨"RuntimeError", "restore failed"⟩⟩

/-- Fixture: a session handler whose switch operation always raises a
foreign error. -/
def c3SessBad : SessionHandler :=
  ⟨"connection", "connections", true, "ConnectionError",
   fun _ _ => .error ⟨"RuntimeError", "restore failed"⟩⟩

/-- Fixture: a library carrying the two failing handlers above. -/
def c3Lib : Lib := ⟨[c3SessBad], [c3CtxBad]⟩

/-- Fixture: a state for the restoration-failure scenarios. -/
def c3St : LibState :=
  ⟨[("connection", 1)], [("connections", [("A", 1)])], [("mode", "normal")]⟩

/-- Fixture: a second canonically behaving session handler kind, declared
after `wSess`. -/
def c4H2 : SessionHandler :=
  ⟨"account", "accounts", true, "AccountError",
   canonicalSessionSwitch "account" "accounts" "AccountError"⟩

/-- Fixture: a Keyword on a library declaring `wSess` then `c4H2`. -/
def c4KwA : Keyword :=
  ⟨"C4 KW A", ⟨wFnOk, [], [], [], none⟩, ⟨[wSess, c4H2], []⟩, []⟩

/-- Fixture: a Keyword differing from `c4KwA` in everything after the
first session handler kind: no later session kinds, a context handler set,
and a raising implementation. -/
def c4KwB : Keyword :=
  ⟨"C4 KW B", ⟨wFnBad, [], [], [], none⟩, ⟨[wSess], [wCtx]⟩, [wCtx]⟩

/-- Fixture: kwargs requesting an unknown session alias for the first
kind and a session for the second kind. -/
def c4Kwargs : List (String × Val) :=
  [("connection", Val.str "C"), ("account", Val.str "X")]

theorem lookupA_none_iff_forall {β : Type} :
    ∀ (l : List (String × β)) (k : String),
      lookupA l k = none ↔ ∀ e ∈ l, e.1 ≠ k
  | [], k => by simp [lookupA]
  | (k', v) :: rest, k => by
    by_cases h : k' = k
    · subst h
      simp [lookupA]
    · simp only [lookupA, if_neg h, List.mem_cons]
      rw [lookupA_none_iff_forall rest k]
      constructor
      · rintro hall e (rfl | he)
        · exact h
        · exact hall e he
      · intro hall e he
        exact hall e (Or.inr he)

theorem popA_none_iff {β : Type} :
    ∀ (l : List (String × β)) (k : String),
      popA l k = none ↔ lookupA l k = none
  | [], k => by simp [popA, lookupA]
  | (k', v) :: rest, k => by
    by_cases h : k' = k
    · subst h
      simp only [popA, lookupA, if_pos rfl]
      constructor <;> intro hx <;> exact absurd hx (by simp)
    · simp only [popA, lookupA, if_neg h]
      rw [← popA_none_iff rest k]
      cases hp : popA rest k with
      | none => simp
      | some p => simp

theorem popA_lookup {β : Type} {l : List (String × β)} :
    ∀ {k : String} {v : β} {l' : List (String × β)},
      popA l k = some (v, l') → lookupA l k = some v := by
  induction l with
  | nil => intro k v l' h; simp [popA] at h
  | cons e rest ih =>
    intro k v l' h
    obtain ⟨k₀, w⟩ := e
    simp only [popA] at h
    simp only [lookupA]
    split_ifs at h ⊢ with hk
    · simp only [Option.some.injEq, Prod.mk.injEq] at h
      exact congrArg some h.1
    · cases hp : popA rest k with
      | none => rw [hp] at h; exact absurd h (by simp)
      | some p =>
        obtain ⟨w', rest'⟩ := p
        rw [hp] at h
        simp only [Option.some.injEq, Prod.mk.injEq] at h
        rw [← h.1]
        exact ih hp

theorem popA_lookup_ne {β : Type} {l : List (String × β)} :
    ∀ {k : String} {v : β} {l' : List (String × β)},
      popA l k = some (v, l') → ∀ k', k' ≠ k → lookupA l' k' = lookupA l k' := by
  induction l with
  | nil => intro k v l' h; simp [popA] at h
  | cons e rest ih =>
    intro k v l' h k' hne
    obtain ⟨k₀, w⟩ := e
    simp only [popA] at h
    split_ifs at h with hk
    · simp only [Option.some.injEq, Prod.mk.injEq] at h
      rw [← h.2]
      subst hk
      simp only [lookupA]
      rw [if_neg (fun hh : k₀ = k' => hne hh.symm)]
    · cases hp : popA rest k with
      | none => rw [hp] at h; exact absurd h (by simp)
      | some p =>
        obtain ⟨w', rest'⟩ := p
        rw [hp] at h
        simp only [Option.some.injEq, Prod.mk.injEq] at h
        rw [← h.2]
        by_cases hk' : k₀ = k'
        · simp [lookupA, hk']
        · simp only [lookupA, if_neg hk']
          exact ih hp k' hne

theorem popA_map_fst_erase {β : Type} {l : List (String × β)} :
    ∀ {k : String} {v : β} {l' : List (String × β)},
      popA l k = some (v, l') → l'.map Prod.fst = (l.map Prod.fst).erase k := by
  induction l with
  | nil => intro k v l' h; simp [popA] at h
  | cons e rest ih =>
    intro k v l' h
    obtain ⟨k₀, w⟩ := e
    simp only [popA] at h
    split_ifs at h with hk
    · simp only [Option.some.injEq, Prod.mk.injEq] at h
      rw [← h.2]
      subst hk
      simp [List.erase_cons_head]
    · cases hp : popA rest k with
      | none => rw [hp] at h; exact absurd h (by simp)
      | some p =>
        obtain ⟨w', rest'⟩ := p
        rw [hp] at h
        simp only [Option.some.injEq, Prod.mk.injEq] at h
        rw [← h.2]
        simp only [List.map_cons]
        rw [ih hp, List.erase_cons_tail]
        simp [hk]

theorem popA_filter_of_nodup {β : Type} {l : List (String × β)} {k : String}
    {v : β} {l' : List (String × β)} (h : popA l k = some (v, l'))
    (hn : (l.map Prod.fst).Nodup) :
    l' = l.filter (fun e => !(e.1 == k)) := by
  induction l generalizing l' with
  | nil => simp [popA] at h
  | cons e rest ih =>
    obtain ⟨k₀, w⟩ := e
    simp only [List.map_cons, List.nodup_cons] at hn
    simp only [popA] at h
    split_ifs at h with hk
    · simp only [Option.some.injEq, Prod.mk.injEq] at h
      rw [← h.2]
      subst hk
      rw [List.filter_cons_of_neg (by simp)]
      rw [List.filter_eq_self.mpr]
      intro a ha
      simp only [Bool.not_eq_eq_eq_not, Bool.not_true, beq_eq_false_iff_ne, ne_eq]
      intro hak
      exact hn.1 (hak ▸ List.mem_map_of_mem Prod.fst ha)
    · cases hp : popA rest k with
      | none => rw [hp] at h; exact absurd h (by simp)
      | some p =>
        obtain ⟨w', rest'⟩ := p
        rw [hp] at h
        simp only [Option.some.injEq, Prod.mk.injEq] at h
        rw [← h.2]
        rw [List.filter_cons_of_pos (by simp [hk])]
        rw [h.1] at hp
        rw [ih hp hn.2]

theorem nodup_keys_popA {β : Type} {l : List (String × β)} {k : String}
    {v : β} {l' : List (String × β)} (h : popA l k = some (v, l'))
    (hn : (l.map Prod.fst).Nodup) : (l'.map Prod.fst).Nodup := by
  rw [popA_map_fst_erase h]
  exact hn.erase k

theorem not_mem_keys_popA {β : Type} {l : List (String × β)} {k : String}
    {v : β} {l' : List (String × β)} (h : popA l k = some (v, l'))
    (hn : (l.map Prod.fst).Nodup) : k ∉ l'.map Prod.fst := by
  rw [popA_map_fst_erase h]
  exact hn.not_mem_erase

theorem mem_keys_popA {β : Type} {l : List (String × β)} {k : String}
    {v : β} {l' : List (String × β)} (h : popA l k = some (v, l')) :
    ∀ {k'}, k' ∈ l'.map Prod.fst → k' ∈ l.map Prod.fst := by
  intro k' hk'
  rw [popA_map_fst_erase h] at hk'
  exact (List.erase_subset _ _) hk'

/-- C10: `Keyword.__doc__` returns `None` for a docstring without a
newline; a docstring containing a newline is returned as its first line
followed by the dedented remainder. -/
theorem c10_single_line_doc_none (kw : Keyword) (d : String)
    (h : kw.func.doc = some d) :
    (d.data.contains '\n' = false → Keyword.doc kw = none) ∧
    (d.data.contains '\n' = true →
      Keyword.doc kw =
        some ((splitFirstLine d).1 ++ "\n" ++ dedent (splitFirstLine d).2)) := by
  have hd : Keyword.doc kw =
      if d.data.contains '\n' then
        some ((splitFirstLine d).1 ++ "\n" ++ dedent (splitFirstLine d).2)
      else none := by
    unfold Keyword.doc
    rw [h]
  constructor <;> intro hc <;> rw [hd, hc] <;> simp

theorem c10_witness :
    exDocKw.func.doc = some "Single line docstring." ∧
    "Single line docstring.".data.contains '\n' = false ∧
    Keyword.doc exDocKw = none :=
  ⟨rfl, by decide,
   (c10_single_line_doc_none exDocKw "Single line docstring." rfl).1 (by decide)⟩

theorem defaultedGo_eq (ds : List Val) (n : Nat) (l : List String) :
    ∀ i : Nat, i + l.length = n → ds.length ≤ n →
    defaultedGo ds n i l =
      l.take (n - ds.length - i) ++
        List.zipWith (fun name d => name ++ "=" ++ d.render)
          (l.drop (n - ds.length - i)) (ds.drop (i - (n - ds.length))) := by
  induction l with
  | nil => intro i hi hd; simp [defaultedGo]
  | cons name rest ih =>
    intro i hi hd
    simp only [List.length_cons] at hi
    by_cases hc : n ≤ i + ds.length
    · have hw : n - ds.length - i = 0 := by omega
      have hidx : i - (n - ds.length) < ds.length := by omega
      rw [defaultedGo, if_pos hc, hw]
      simp only [List.take_zero, List.drop_zero, List.nil_append]
      rw [List.drop_eq_getElem_cons hidx, List.zipWith_cons_cons]
      have hidx2 : i + ds.length - n = i - (n - ds.length) := by omega
      rw [hidx2, List.getD_eq_getElem ds (Val.str "") hidx]
      congr 1
      rw [ih (i + 1) (by omega) hd]
      have hw2 : n - ds.length - (i + 1) = 0 := by omega
      rw [hw2]
      simp only [List.take_zero, List.drop_zero, List.nil_append]
      congr 2
      omega
    · have hw : n - ds.length - i = (n - ds.length - (i + 1)) + 1 := by omega
      rw [defaultedGo, if_neg hc, hw, List.take_succ_cons, List.drop_succ_cons]
      rw [ih (i + 1) (by omega) hd]
      have h0 : i - (n - ds.length) = 0 := by omega
      have h0' : i + 1 - (n - ds.length) = 0 := by omega
      rw [h0, h0']
      simp

/-- C9: without an explicit override, `args()` yields every positional
name after the leading `self`-like binding, with `"=<default>"` appended
exactly on the trailing window of names whose length equals the number of
defaults. -/
theorem c9_args_defaults_window (kw : Keyword)
    (hov : kw.func.args = [])
    (hlen : kw.func.base.argspec.defaults.length ≤
      (kw.func.base.argspec.args.drop 1).length) :
    Keyword.args kw =
      ((kw.func.base.argspec.args.drop 1).take
          ((kw.func.base.argspec.args.drop 1).length -
            kw.func.base.argspec.defaults.length) ++
        List.zipWith (fun name d => name ++ "=" ++ d.render)
          ((kw.func.base.argspec.args.drop 1).drop
            ((kw.func.base.argspec.args.drop 1).length -
              kw.func.base.argspec.defaults.length))
          kw.func.base.argspec.defaults) ++
        (match kw.func.base.argspec.varargs with
          | some v => ["*" ++ v]
          | none => []) ++
        (match kw.func.base.argspec.keywords with
          | some k => ["**" ++ k]
          | none => if kw.autoOptions then ["**options"] else []) := by
  have hargs : Keyword.args kw =
      (if kw.func.base.argspec.defaults ≠ [] then
        defaultedArgs (kw.func.base.argspec.args.drop 1) kw.func.base.argspec.defaults
      else kw.func.base.argspec.args.drop 1)
      ++ (match kw.func.base.argspec.varargs with
          | some v => ["*" ++ v]
          | none => [])
      ++ (match kw.func.base.argspec.keywords with
          | some k => ["**" ++ k]
          | none => if kw.autoOptions then ["**options"] else []) := by
    unfold Keyword.args
    rw [if_neg (by simp [hov])]
  rw [hargs]
  congr 1
  congr 1
  by_cases hd : kw.func.base.argspec.defaults = []
  · rw [if_neg (not_not_intro hd), hd]
    simp
  · rw [if_pos hd]
    unfold defaultedArgs
    rw [defaultedGo_eq kw.func.base.argspec.defaults
      (kw.func.base.argspec.args.drop 1).length
      (kw.func.base.argspec.args.drop 1) 0 (Nat.zero_add _) hlen]
    simp

theorem c9_witness :
    exArgsKw.func.args = [] ∧
    exArgsKw.func.base.argspec.defaults.length ≤
      (exArgsKw.func.base.argspec.args.drop 1).length ∧
    Keyword.args exArgsKw = ["x", "y=1", "z=2", "**options"] := by
  refine ⟨rfl, by decide, ?_⟩
  rw [c9_args_defaults_window exArgsKw rfl (by decide)]
  rfl

theorem entry_ne_optionsLit (nm r : String) : nm ++ "=" ++ r ≠ "**options" := by
  intro h
  have hd : (nm ++ "=" ++ r).data = "**options".data := congrArg String.data h
  rw [String.data_append, String.data_append] at hd
  have hm : '=' ∈ "**options".data := by
    rw [← hd]
    exact List.mem_append_left _ (List.mem_append_right _ (by decide))
  exact absurd hm (by decide)

theorem star_append_eq (v : String) (h : "*" ++ v = "**options") : v = "*options" := by
  have hd := congrArg String.data h
  rw [String.data_append] at hd
  have h1 : ("*" : String).data = ['*'] := by decide
  have h2 : "**options".data = '*' :: ("*options" : String).data := by decide
  rw [h1, h2] at hd
  apply String.ext
  injection hd

theorem dstar_append_eq (k : String) (h : "**" ++ k = "**options") : k = "options" := by
  have hd := congrArg String.data h
  rw [String.data_append] at hd
  have h1 : ("**" : String).data = ['*', '*'] := by decide
  have h2 : "**options".data = '*' :: '*' :: ("options" : String).data := by decide
  rw [h1, h2] at hd
  apply String.ext
  injection hd with _ hd
  injection hd

theorem mem_defaultedGo (ds : List Val) (n : Nat) (l : List String) :
    ∀ (i : Nat) (x : String), x ∈ defaultedGo ds n i l →
      x ∈ l ∨ ∃ nm r, nm ∈ l ∧ x = nm ++ "=" ++ r := by
  induction l with
  | nil => intro i x hx; simp [defaultedGo] at hx
  | cons name rest ih =>
    intro i x hx
    simp only [defaultedGo, List.mem_cons] at hx
    rcases hx with hx | hx
    · by_cases hc : n ≤ i + ds.length
      · rw [if_pos hc] at hx
        exact Or.inr ⟨name, _, List.mem_cons_self _ _, hx⟩
      · rw [if_neg hc] at hx
        exact Or.inl (hx ▸ List.mem_cons_self _ _)
    · rcases ih (i + 1) x hx with h | ⟨nm, r, hnm, hr⟩
      · exact Or.inl (List.mem_cons_of_mem _ h)
      · exact Or.inr ⟨nm, r, List.mem_cons_of_mem _ hnm, hr⟩

theorem c8_counterexample : ¬ claimC8Prop := by
  intro h
  have hmem : "**options" ∈ Keyword.args c8Kw := by decide
  have hiff := (h c8Kw rfl).mp hmem
  exact absurd hiff.1 (by decide)

/-- C8 amended: without an explicit override, `args()` yields the
synthesized `"**options"` entry exactly when no variadic-*keyword*
parameter is declared (a variadic-positional parameter does not suppress
it) and some session handler kind on the library instance or some derived
context handler kind has `auto_explicit`. -/
theorem c8_amended (kw : Keyword)
    (hov : kw.func.args = [])
    (hbare : "**options" ∉ kw.func.base.argspec.args)
    (hv : kw.func.base.argspec.varargs ≠ some "*options")
    (hk : kw.func.base.argspec.keywords ≠ some "options") :
    ("**options" ∈ Keyword.args kw ↔
      (kw.func.base.argspec.keywords = none ∧ kw.autoOptions = true)) := by
  have hargs : Keyword.args kw =
      (if kw.func.base.argspec.defaults ≠ [] then
        defaultedArgs (kw.func.base.argspec.args.drop 1) kw.func.base.argspec.defaults
      else kw.func.base.argspec.args.drop 1)
      ++ (match kw.func.base.argspec.varargs with
          | some v => ["*" ++ v]
          | none => [])
      ++ (match kw.func.base.argspec.keywords with
          | some k => ["**" ++ k]
          | none => if kw.autoOptions then ["**options"] else []) := by
    unfold Keyword.args
    rw [if_neg (by simp [hov])]
  rw [hargs]
  have hposargs : ∀ y ∈ kw.func.base.argspec.args.drop 1, y ≠ "**options" := by
    intro y hy heq
    exact hbare (heq ▸ List.mem_of_mem_drop hy)
  have hcore : "**options" ∉ (if kw.func.base.argspec.defaults ≠ [] then
      defaultedArgs (kw.func.base.argspec.args.drop 1) kw.func.base.argspec.defaults
      else kw.func.base.argspec.args.drop 1) := by
    intro hmem
    split_ifs at hmem with hd
    · rcases mem_defaultedGo kw.func.base.argspec.defaults
        (kw.func.base.argspec.args.drop 1).length
        (kw.func.base.argspec.args.drop 1) 0 _ hmem with h | ⟨nm, r, hnm, hr⟩
      · exact hposargs _ h rfl
      · exact entry_ne_optionsLit nm r hr.symm
    · exact hposargs _ hmem rfl
  have hvar : "**options" ∉ (match kw.func.base.argspec.varargs with
      | some v => ["*" ++ v]
      | none => ([] : List String)) := by
    cases hvv : kw.func.base.argspec.varargs with
    | none => simp
    | some v =>
      simp only [List.mem_singleton]
      intro heq
      exact hv (by rw [hvv, star_append_eq v heq.symm])
  constructor
  · intro hmem
    rcases List.mem_append.mp hmem with hmem | hmem
    · rcases List.mem_append.mp hmem with hmem | hmem
      · exact absurd hmem hcore
      · exact absurd hmem hvar
    · cases hkk : kw.func.base.argspec.keywords with
      | some k =>
        rw [hkk] at hmem
        simp only [List.mem_singleton] at hmem
        exact absurd (by rw [hkk, dstar_append_eq k hmem.symm]) hk
      | none =>
        rw [hkk] at hmem
        by_cases ha : kw.autoOptions = true
        · exact ⟨by first | exact hkk | rfl, ha⟩
        · rw [if_neg ha] at hmem
          exact absurd hmem (by simp)
  · rintro ⟨hknone, hauto⟩
    have hlast : (match kw.func.base.argspec.keywords with
        | some k => ["**" ++ k]
        | none => if kw.autoOptions then ["**options"] else []) = ["**options"] := by
      rw [hknone, hauto]
      simp
    rw [hlast]
    exact List.mem_append_right _ (by simp)

theorem c8_amended_witness :
    "**options" ∈ Keyword.args c8Kw ↔
      (c8Kw.func.base.argspec.keywords = none ∧ c8Kw.autoOptions = true) :=
  c8_amended c8Kw rfl (by decide) (by decide) (by decide)

theorem resolve_foldl_eq_getLast (variants : List (String × Fn)) (active : List String) :
    ∀ base : Fn,
      variants.foldl (fun f cg => if active.contains cg.1 then cg.2 else f) base =
        ((variants.filter (fun cg => active.contains cg.1)).getLast?.elim base Prod.snd) := by
  induction variants with
  | nil => intro base; rfl
  | cons v vs ih =>
    intro base
    simp only [List.foldl_cons, List.filter_cons]
    by_cases hv : active.contains v.1
    · rw [if_pos hv, if_pos hv, ih v.2]
      cases hfl : vs.filter (fun cg => active.contains cg.1) with
      | nil => simp
      | cons y ys =>
        rw [List.getLast?_cons_cons]
        rfl
    · rw [if_neg hv, if_neg hv, ih base]

/-- C6 amended: the direct-or-reshape decision of the dispatch step is
taken on the *base* keyword function's reflected signature
(`self.func.argspec`), not the resolved variant's; when the base declares
a variadic-keyword parameter or no named arguments remain, the resolved
implementation — the variant of the last matching active context, falling
back to the base — is invoked directly with the library instance, the
(possibly cast) positional arguments and the remaining named
arguments. -/
theorem c6_amended (kw : Keyword) (st : LibState) (args : List Val)
    (kwargs : List (String × Val))
    (hdec : kw.func.base.argspec.keywords.isSome = true ∨ kwargs = []) :
    dispatchPhase kw st args kwargs =
      ((kw.func.contexts.filter
        (fun cg => st.contexts.contains cg.1)).getLast?.elim kw.func.base Prod.snd).run
        st (castArgs kw.func.argtypes args) kwargs := by
  have hres := resolve_foldl_eq_getLast kw.func.contexts st.contexts kw.func.base
  simp only [dispatchPhase]
  rw [← hres]
  rcases hdec with h | h
  · rw [if_pos (by rw [h]; rfl)]
  · subst h
    rw [if_pos (by simp)]

theorem c6_counterexample : ¬ claimC6Prop := by
  intro h
  have h1 := h c6Kw [] [("extra", Val.str "v")] c6St
  exact absurd h1 (by decide)

theorem c6_amended_witness :
    dispatchPhase c6Kw c6St [] [("extra", Val.str "v")] =
      ((c6Kw.func.contexts.filter
        (fun cg => c6St.contexts.contains cg.1)).getLast?.elim c6Kw.func.base Prod.snd).run
        c6St (castArgs c6Kw.func.argtypes []) [("extra", Val.str "v")] :=
  c6_amended c6Kw c6St [] [("extra", Val.str "v")] (Or.inl (by decide))

theorem synthVarargs_eq (argnames : List String) (kwargs : List (String × Val)) :
    synthVarargs argnames kwargs =
      ((kwargs.filter (fun e => !(argnames.contains e.1))).map
        (fun e => Val.str (e.1 ++ "=" ++ e.2.render)),
       kwargs.filter (fun e => argnames.contains e.1)) := by
  induction kwargs with
  | nil => rfl
  | cons e rest ih =>
    simp only [synthVarargs, ih, List.filter_cons]
    by_cases he : e.1 ∈ argnames
    · simp [he]
    · simp [he]

theorem drainPos_eq (names : List String) :
    ∀ kwargs : List (String × Val),
      names.Nodup → (kwargs.map Prod.fst).Nodup →
      drainPos names kwargs =
        (names.filterMap (fun n => lookupA kwargs n),
         kwargs.filter (fun e => !(names.contains e.1))) := by
  induction names with
  | nil =>
    intro kwargs _ _
    simp [drainPos]
  | cons n ns ih =>
    intro kwargs hn hk
    simp only [List.nodup_cons] at hn
    cases hp : popA kwargs n with
    | none =>
      have hln : lookupA kwargs n = none := (popA_none_iff kwargs n).mp hp
      have hstep : drainPos (n :: ns) kwargs = drainPos ns kwargs := by
        simp only [drainPos]
        rw [hp]
      have hfm : (n :: ns).filterMap (fun m => lookupA kwargs m) =
          ns.filterMap (fun m => lookupA kwargs m) := by
        rw [List.filterMap_cons, hln]
      rw [hstep, ih kwargs hn.2 hk, hfm]
      congr 1
      apply List.filter_congr
      intro e he
      have hne : e.1 ≠ n := (lookupA_none_iff_forall kwargs n).mp hln e he
      simp [List.contains_cons, hne]
    | some p =>
      obtain ⟨v, kwargs'⟩ := p
      have hlv : lookupA kwargs n = some v := popA_lookup hp
      have hstep : drainPos (n :: ns) kwargs =
          (v :: (drainPos ns kwargs').1, (drainPos ns kwargs').2) := by
        simp only [drainPos]
        rw [hp]
      have hfm : (n :: ns).filterMap (fun m => lookupA kwargs m) =
          v :: ns.filterMap (fun m => lookupA kwargs m) := by
        rw [List.filterMap_cons, hlv]
      rw [hstep, ih kwargs' hn.2 (nodup_keys_popA hp hk), hfm]
      have hfst : ns.filterMap (fun m => lookupA kwargs' m) =
          ns.filterMap (fun m => lookupA kwargs m) := by
        apply List.filterMap_congr
        intro m hm
        exact popA_lookup_ne hp m (fun hmn => hn.1 (hmn ▸ hm))
      have hsnd : kwargs'.filter (fun e => !(ns.contains e.1)) =
          kwargs.filter (fun e => !((n :: ns).contains e.1)) := by
        rw [popA_filter_of_nodup hp hk, List.filter_filter]
        apply List.filter_congr
        intro e he
        by_cases hen : e.1 = n
        · have hmem : n ∈ kwargs.map Prod.fst := hen ▸ List.mem_map_of_mem Prod.fst he
          simp [List.contains_cons, hen]
        · simp [List.contains_cons, hen]
      rw [hfst, hsnd]

theorem c7_counterexample : ¬ claimC7Prop := by
  intro h
  exact absurd (h ["self", "x"] [Val.nat 0] [("x", Val.nat 1)] (by decide)) (by decide)

/-- C7 amended: when the base function declares no variadic-keyword
parameter and named arguments remain, the reshape first drains, in
declared positional order, the kwargs entries whose keys match
still-unfilled positional names; of the remaining entries, only those
whose keys are *not* among the declared argument names become trailing
`"key=value"` positional literals — entries whose keys match an
already-filled declared name (including the leading `self`-like binding)
are left in kwargs and passed on as named arguments. -/
theorem c7_amended (kw : Keyword) (st : LibState) (args : List Val)
    (kwargs : List (String × Val))
    (hkw : kw.func.base.argspec.keywords = none)
    (hne : kwargs ≠ [])
    (hnn : (kw.func.base.argspec.args.drop
      (1 + (castArgs kw.func.argtypes args).length)).Nodup)
    (hnk : (kwargs.map Prod.fst).Nodup) :
    dispatchPhase kw st args kwargs =
      (kw.func.contexts.foldl
        (fun f cg => if st.contexts.contains cg.1 then cg.2 else f) kw.func.base).run st
        (castArgs kw.func.argtypes args
          ++ (kw.func.base.argspec.args.drop
              (1 + (castArgs kw.func.argtypes args).length)).filterMap
              (fun n => lookupA kwargs n)
          ++ ((kwargs.filter (fun e =>
                !((kw.func.base.argspec.args.drop
                  (1 + (castArgs kw.func.argtypes args).length)).contains e.1))).filter
              (fun e => !(kw.func.base.argspec.args.contains e.1))).map
              (fun e => Val.str (e.1 ++ "=" ++ e.2.render)))
        ((kwargs.filter (fun e =>
            !((kw.func.base.argspec.args.drop
              (1 + (castArgs kw.func.argtypes args).length)).contains e.1))).filter
          (fun e => kw.func.base.argspec.args.contains e.1)) := by
  have hempty : kwargs.isEmpty = false := by
    cases kwargs with
    | nil => exact absurd rfl hne
    | cons e rest => rfl
  simp only [dispatchPhase]
  rw [if_neg (by rw [hkw, hempty]; exact Bool.false_ne_true)]
  rw [drainPos_eq _ kwargs hnn hnk]
  rw [synthVarargs_eq]

theorem c7_amended_witness :
    dispatchPhase c7Kw c7St [Val.nat 7] [("y", Val.nat 5), ("w", Val.nat 6)] =
      Except.ok (Val.pair (Val.nat 3) (Val.nat 0)) :=
  (c7_amended c7Kw c7St [Val.nat 7] [("y", Val.nat 5), ("w", Val.nat 6)]
    rfl (by decide) (by decide) (by decide)).trans (by decide)

theorem c5_counterexample : ¬ claimC5Prop := fun h =>
  absurd
    (h wLib wSess [] [("connection", Val.str "C")] wSt [] wSt []
      ⟨"ConnectionError", "unknown session: C"⟩ [] rfl (by decide) (by decide) rfl)
    (by decide)

/-- C5 amended: the switching phase reads the handler kind's current
session before attempting `switch(alias)`, but records it into the restore
map only after the switch succeeds; when the switch raises the kind's
session error, the restore map is returned unchanged — the kind is absent
from it, so the restoration phase does not attempt to switch that kind
back. -/
theorem c5_amended (lib : Lib) (h : SessionHandler) (hs : List SessionHandler)
    (kwargs : List (String × Val)) (st : LibState)
    (acc : List ((String × String) × Nat))
    (sname : Val) (kwargs' : List (String × Val)) (prev : Nat)
    (sw : Val → LibState → Except Err LibState)
    (hauto : h.autoExplicit = true)
    (hpop : popA kwargs h.identifier = some (sname, kwargs'))
    (hcur : getCurSession st h.identifier = .ok prev)
    (hsw : getSwitchSession lib h.identifier = .ok sw) :
    (∀ e : Err, sw sname st = .error e → e.kind = h.errKind →
      switchSessions lib (h :: hs) kwargs st acc = (st, .ok (kwargs', some e, acc))) ∧
    (∀ st' : LibState, sw sname st = .ok st' →
      switchSessions lib (h :: hs) kwargs st acc =
        switchSessions lib hs kwargs' st'
          (acc ++ [((h.identifier, h.pluralIdentifier), prev)])) := by
  constructor
  · intro e herr hkind
    simp [switchSessions, hauto, hpop, hcur, hsw, herr, hkind]
  · intro st' hok
    simp [switchSessions, hauto, hpop, hcur, hsw, hok]

theorem c5_amended_witness :
    switchSessions wLib [wSess] [("connection", Val.str "C")] wSt [] =
      (wSt, .ok ([], some ⟨"ConnectionError", "unknown session: C"⟩, [])) :=
  (c5_amended wLib wSess [] [("connection", Val.str "C")] wSt [] (Val.str "C") [] 1
    (canonicalSessionSwitch "connection" "connections" "ConnectionError")
    rfl rfl rfl rfl).1
    ⟨"ConnectionError", "unknown session: C"⟩ (by decide) rfl

/-- C3: an error raised while restoring a recorded context or a recorded
session is not caught: `finishCall` — the tail every completed
`keywordCall` goes through — propagates it with the state it was raised
in, for *every* value of the captured error, which is therefore never
re-raised. -/
theorem c3_restore_error_propagates (lib : Lib) (error : Option Err)
    (result : Option Val) (rc : List (String × String))
    (rs : List ((String × String) × Nat)) (st : LibState) :
    (∀ (st' : LibState) (e : Err),
      restoreContextsPhase lib rc st = (st', .error e) →
      finishCall lib error result rc rs st = (st', .error e)) ∧
    (∀ (st₁ st' : LibState) (e : Err),
      restoreContextsPhase lib rc st = (st₁, .ok ()) →
      restoreSessionsPhase lib rs st₁ = (st', .error e) →
      finishCall lib error result rc rs st = (st', .error e)) := by
  constructor
  · intro st' e h
    simp only [finishCall, h]
  · intro st₁ st' e h1 h2
    simp only [finishCall, h1, h2]

theorem c3_witness :
    restoreContextsPhase c3Lib [("mode", "normal")] c3St =
      (c3St, .error ⟨"RuntimeError", "restore failed"⟩) ∧
    finishCall c3Lib (some ⟨"ValueError", "boom"⟩) none [("mode", "normal")] [] c3St =
      (c3St, .error ⟨"RuntimeError", "restore failed"⟩) :=
  ⟨by decide,
   (c3_restore_error_propagates c3Lib (some ⟨"ValueError", "boom"⟩) none
      [("mode", "normal")] [] c3St).1 c3St ⟨"RuntimeError", "restore failed"⟩ (by decide)⟩

theorem switchSessions_append (L : Lib) (xs : List SessionHandler) :
    ∀ (ys : List SessionHandler) (kwargs : List (String × Val)) (st : LibState)
      (acc : List ((String × String) × Nat)),
      switchSessions L (xs ++ ys) kwargs st acc =
        match switchSessions L xs kwargs st acc with
        | (st', .ok (k', none, acc')) => switchSessions L ys k' st' acc'
        | r => r := by
  induction xs with
  | nil => intro ys kwargs st acc; rfl
  | cons h xs ih =>
    intro ys kwargs st acc
    show switchSessions L (h :: (xs ++ ys)) kwargs st acc = _
    simp only [switchSessions]
    by_cases hauto : h.autoExplicit = false
    · simp only [if_pos hauto]
      exact ih ys kwargs st acc
    · simp only [if_neg hauto]
      cases hp : popA kwargs h.identifier with
      | none => exact ih ys kwargs st acc
      | some p =>
        obtain ⟨sname, kwargs'⟩ := p
        dsimp only
        cases hcur : getCurSession st h.identifier with
        | error e => rfl
        | ok prev =>
          dsimp only
          cases hsw : getSwitchSession L h.identifier with
          | error e => rfl
          | ok sw =>
            dsimp only
            cases hrun : sw sname st with
            | error e =>
              dsimp only
              by_cases hkind : e.kind = h.errKind
              · simp only [if_pos hkind]
              · simp only [if_neg hkind]
            | ok st' =>
              dsimp only
              exact ih ys kwargs' st' _

theorem switchSessions_congr (lib1 lib2 : Lib) (hs : List SessionHandler)
    (hlib : ∀ h ∈ hs, getSwitchSession lib1 h.identifier = getSwitchSession lib2 h.identifier) :
    ∀ (kwargs : List (String × Val)) (st : LibState)
      (acc : List ((String × String) × Nat)),
      switchSessions lib1 hs kwargs st acc = switchSessions lib2 hs kwargs st acc := by
  induction hs with
  | nil => intro kwargs st acc; rfl
  | cons h hs ih =>
    intro kwargs st acc
    have hh := hlib h (List.mem_cons_self _ _)
    have htl := fun h' hm => hlib h' (List.mem_cons_of_mem _ hm)
    simp only [switchSessions]
    by_cases hauto : h.autoExplicit = false
    · rw [if_pos hauto, if_pos hauto]
      exact ih htl kwargs st acc
    · rw [if_neg hauto, if_neg hauto]
      cases hp : popA kwargs h.identifier with
      | none => exact ih htl kwargs st acc
      | some p =>
        obtain ⟨sname, kwargs'⟩ := p
        dsimp only
        cases hcur : getCurSession st h.identifier with
        | error e => rfl
        | ok prev =>
          dsimp only
          rw [← hh]
          cases hsw : getSwitchSession lib1 h.identifier with
          | error e => rfl
          | ok sw =>
            dsimp only
            cases hrun : sw sname st with
            | error e => rfl
            | ok st' =>
              dsimp only
              exact ih htl kwargs' st' _

theorem restoreSessionAliases_congr (lib1 lib2 : Lib) (id : String) (session : Nat)
    (hsw : getSwitchSession lib1 id = getSwitchSession lib2 id) :
    ∀ (pool : List (String × Nat)) (st : LibState),
      restoreSessionAliases lib1 id session pool st =
        restoreSessionAliases lib2 id session pool st := by
  intro pool
  induction pool with
  | nil => intro st; rfl
  | cons e rest ih =>
    intro st
    obtain ⟨sname, sinstance⟩ := e
    simp only [restoreSessionAliases]
    by_cases hm : sinstance = session
    · rw [if_pos hm, if_pos hm, ← hsw]
      cases h1 : getSwitchSession lib1 id with
      | error e => rfl
      | ok sw =>
        dsimp only
        cases hrun : sw (Val.str sname) st with
        | error e => rfl
        | ok st' =>
          dsimp only
          exact ih st'
    · rw [if_neg hm, if_neg hm]
      exact ih st

theorem restoreSessionsPhase_congr (lib1 lib2 : Lib)
    (entries : List ((String × String) × Nat))
    (hsw : ∀ en ∈ entries, getSwitchSession lib1 en.1.1 = getSwitchSession lib2 en.1.1) :
    ∀ st : LibState,
      restoreSessionsPhase lib1 entries st = restoreSessionsPhase lib2 entries st := by
  induction entries with
  | nil => intro st; rfl
  | cons en rest ih =>
    intro st
    obtain ⟨⟨id, pl⟩, session⟩ := en
    have hh := hsw _ (List.mem_cons_self _ _)
    have htl := fun en' hm => hsw en' (List.mem_cons_of_mem _ hm)
    simp only [restoreSessionsPhase]
    cases hpool : getPool st pl with
    | error e => rfl
    | ok pool =>
      dsimp only
      rw [restoreSessionAliases_congr lib1 lib2 id session hh pool st]
      cases hra : restoreSessionAliases lib2 id session pool st with
      | mk st' r =>
        cases r with
        | error e => rfl
        | ok u =>
          cases u
          exact ih htl st'

theorem find?_append_left {α : Type} (p : α → Bool) (xs ys : List α)
    (h : (xs.find? p).isSome) : (xs ++ ys).find? p = xs.find? p := by
  rw [List.find?_append]
  cases hf : xs.find? p with
  | none => rw [hf] at h; exact absurd h (by simp)
  | some x => rfl

theorem getSwitchSession_prefix (common post post' : List SessionHandler)
    (ctx ctx' : List ContextHandler) (id : String)
    (hmem : ∃ h ∈ common, h.identifier = id) :
    getSwitchSession ⟨common ++ post, ctx⟩ id = getSwitchSession ⟨common ++ post', ctx'⟩ id := by
  obtain ⟨h, hm, hid⟩ := hmem
  have hsome : ((common.find? (fun h' => h'.identifier == id)).isSome) := by
    rw [List.find?_isSome]
    exact ⟨h, hm, by simp [hid]⟩
  unfold getSwitchSession
  rw [show (⟨common ++ post, ctx⟩ : Lib).sessionHandlers = common ++ post from rfl]
  rw [show (⟨common ++ post', ctx'⟩ : Lib).sessionHandlers = common ++ post' from rfl]
  rw [find?_append_left _ common post hsome, find?_append_left _ common post' hsome]

theorem switchSessions_acc_ids (L : Lib) (hs : List SessionHandler) :
    ∀ (kwargs : List (String × Val)) (st : LibState)
      (acc : List ((String × String) × Nat)) (st' : LibState)
      (k' : List (String × Val)) (eOpt : Option Err)
      (acc' : List ((String × String) × Nat)),
      switchSessions L hs kwargs st acc = (st', .ok (k', eOpt, acc')) →
      ∀ en ∈ acc', en ∈ acc ∨ ∃ h ∈ hs, h.identifier = en.1.1 := by
  induction hs with
  | nil =>
    intro kwargs st acc st' k' eOpt acc' h en hen
    simp only [switchSessions, Prod.mk.injEq, Except.ok.injEq] at h
    exact Or.inl (h.2.2.2 ▸ hen)
  | cons hd hs ih =>
    intro kwargs st acc st' k' eOpt acc' h en hen
    simp only [switchSessions] at h
    by_cases hauto : hd.autoExplicit = false
    · rw [if_pos hauto] at h
      rcases ih kwargs st acc st' k' eOpt acc' h en hen with h1 | ⟨h2, hm, hid⟩
      · exact Or.inl h1
      · exact Or.inr ⟨h2, List.mem_cons_of_mem _ hm, hid⟩
    · rw [if_neg hauto] at h
      cases hp : popA kwargs hd.identifier with
      | none =>
        rw [hp] at h
        rcases ih kwargs st acc st' k' eOpt acc' h en hen with h1 | ⟨h2, hm, hid⟩
        · exact Or.inl h1
        · exact Or.inr ⟨h2, List.mem_cons_of_mem _ hm, hid⟩
      | some p =>
        obtain ⟨sname, kwargs'⟩ := p
        rw [hp] at h
        dsimp only at h
        cases hcur : getCurSession st hd.identifier with
        | error e => rw [hcur] at h; exact absurd h (by simp)
        | ok prev =>
          rw [hcur] at h
          dsimp only at h
          cases hsw : getSwitchSession L hd.identifier with
          | error e => rw [hsw] at h; exact absurd h (by simp)
          | ok sw =>
            rw [hsw] at h
            dsimp only at h
            cases hrun : sw sname st with
            | error e =>
              rw [hrun] at h
              dsimp only at h
              by_cases hkind : e.kind = hd.errKind
              · rw [if_pos hkind] at h
                simp only [Prod.mk.injEq, Except.ok.injEq] at h
                exact Or.inl (h.2.2.2 ▸ hen)
              · rw [if_neg hkind] at h
                exact absurd h (by simp)
            | ok st₀ =>
              rw [hrun] at h
              dsimp only at h
              rcases ih kwargs' st₀ _ st' k' eOpt acc' h en hen with h1 | ⟨h2, hm, hid⟩
              · rcases List.mem_append.mp h1 with h1 | h1
                · exact Or.inl h1
                · simp only [List.mem_singleton] at h1
                  exact Or.inr ⟨hd, List.mem_cons_self _ _, by rw [h1]⟩
              · exact Or.inr ⟨h2, List.mem_cons_of_mem _ hm, hid⟩

/-- C4: when the K-th `auto_explicit` session handler kind's switch raises
its session error, the whole call is observationally independent of
everything that would come later: the later session handler kinds, the
entire context handler configuration, the keyword descriptor and the
implementation may all be replaced without changing the call's state
transition or outcome — so no later session switch is attempted, no
context switching happens, and the implementation is never invoked. -/
theorem c4_session_failure_short_circuits
    (kw kw' : Keyword) (pre : List SessionHandler) (hK : SessionHandler)
    (post post' : List SessionHandler)
    (args args' : List Val) (kwargs : List (String × Val)) (st : LibState)
    (st₁ : LibState) (k₁ : List (String × Val))
    (acc₁ : List ((String × String) × Nat))
    (sname : Val) (k₂ : List (String × Val)) (prev : Nat)
    (sw : Val → LibState → Except Err LibState) (e : Err)
    (hlib : kw.lib = ⟨pre ++ hK :: post, kw.lib.contextHandlers⟩)
    (hlib' : kw'.lib = ⟨pre ++ hK :: post', kw'.lib.contextHandlers⟩)
    (hpre : switchSessions kw.lib pre kwargs st [] = (st₁, .ok (k₁, none, acc₁)))
    (hauto : hK.autoExplicit = true)
    (hpop : popA k₁ hK.identifier = some (sname, k₂))
    (hcur : getCurSession st₁ hK.identifier = .ok prev)
    (hsw : getSwitchSession kw.lib hK.identifier = .ok sw)
    (herr : sw sname st₁ = .error e)
    (hkind : e.kind = hK.errKind) :
    keywordCall kw args kwargs st = keywordCall kw' args' kwargs st := by
  have hagree : ∀ id : String, (∃ h ∈ pre ++ [hK], h.identifier = id) →
      getSwitchSession kw.lib id = getSwitchSession kw'.lib id := by
    intro id hmem
    rw [hlib, hlib']
    have h1 : pre ++ hK :: post = (pre ++ [hK]) ++ post := by simp
    have h2 : pre ++ hK :: post' = (pre ++ [hK]) ++ post' := by simp
    rw [show (⟨pre ++ hK :: post, kw.lib.contextHandlers⟩ : Lib) =
        ⟨(pre ++ [hK]) ++ post, kw.lib.contextHandlers⟩ by rw [h1]]
    rw [show (⟨pre ++ hK :: post', kw'.lib.contextHandlers⟩ : Lib) =
        ⟨(pre ++ [hK]) ++ post', kw'.lib.contextHandlers⟩ by rw [h2]]
    exact getSwitchSession_prefix (pre ++ [hK]) post post' _ _ id hmem
  have hagree_pre : ∀ h ∈ pre,
      getSwitchSession kw.lib h.identifier = getSwitchSession kw'.lib h.identifier :=
    fun h hm => hagree h.identifier ⟨h, List.mem_append_left _ hm, rfl⟩
  have hpre' : switchSessions kw'.lib pre kwargs st [] = (st₁, .ok (k₁, none, acc₁)) := by
    rw [← switchSessions_congr kw.lib kw'.lib pre hagree_pre]
    exact hpre
  have hsw' : getSwitchSession kw'.lib hK.identifier = .ok sw := by
    rw [← hagree hK.identifier ⟨hK, List.mem_append_right _ (by simp), rfl⟩]
    exact hsw
  have hbreak : ∀ (L : Lib), getSwitchSession L hK.identifier = .ok sw →
      switchSessions L (hK :: post) k₁ st₁ acc₁ = (st₁, .ok (k₂, some e, acc₁)) ∧
      switchSessions L (hK :: post') k₁ st₁ acc₁ = (st₁, .ok (k₂, some e, acc₁)) := by
    intro L hswL
    constructor <;> simp [switchSessions, hauto, hpop, hcur, hswL, herr, hkind]
  have hfull : switchSessions kw.lib kw.lib.sessionHandlers kwargs st [] =
      (st₁, .ok (k₂, some e, acc₁)) := by
    rw [show kw.lib.sessionHandlers = pre ++ hK :: post by rw [hlib]]
    rw [switchSessions_append kw.lib pre (hK :: post) kwargs st []]
    rw [hpre]
    exact (hbreak kw.lib hsw).1
  have hfull' : switchSessions kw'.lib kw'.lib.sessionHandlers kwargs st [] =
      (st₁, .ok (k₂, some e, acc₁)) := by
    rw [show kw'.lib.sessionHandlers = pre ++ hK :: post' by rw [hlib']]
    rw [switchSessions_append kw'.lib pre (hK :: post') kwargs st []]
    rw [hpre']
    exact (hbreak kw'.lib hsw').2
  have hacc_ids : ∀ en ∈ acc₁, ∃ h ∈ pre, h.identifier = en.1.1 := by
    intro en hen
    rcases switchSessions_acc_ids kw.lib pre kwargs st [] st₁ k₁ none acc₁ hpre en hen with
      h1 | h2
    · exact absurd h1 (by simp)
    · exact h2
  have hrs : restoreSessionsPhase kw.lib acc₁ st₁ = restoreSessionsPhase kw'.lib acc₁ st₁ := by
    apply restoreSessionsPhase_congr
    intro en hen
    obtain ⟨h, hm, hid⟩ := hacc_ids en hen
    exact hagree en.1.1 ⟨h, List.mem_append_left _ hm, hid⟩
  unfold keywordCall
  rw [hfull, hfull']
  dsimp only
  unfold finishCall
  simp only [restoreContextsPhase]
  rw [hrs]

theorem c4_witness :
    keywordCall c4KwA [] c4Kwargs wSt = keywordCall c4KwB [] c4Kwargs wSt :=
  c4_session_failure_short_circuits c4KwA c4KwB [] wSess [c4H2] []
    [] [] c4Kwargs wSt wSt c4Kwargs [] (Val.str "C") [("account", Val.str "X")] 1
    (canonicalSessionSwitch "connection" "connections" "ConnectionError")
    ⟨"ConnectionError", "unknown session: C"⟩
    rfl rfl rfl rfl (by decide) rfl rfl (by decide) rfl

theorem map_fst_updateA {β : Type} :
    ∀ (l : List (String × β)) (k : String) (v : β),
      (updateA l k v).map Prod.fst = l.map Prod.fst
  | [], _, _ => rfl
  | (k₀, w) :: rest, k, v => by
    by_cases h : k₀ = k
    · simp [updateA, h]
    · simp [updateA, h, map_fst_updateA rest k v]

theorem lookupA_updateA_self {β : Type} :
    ∀ (l : List (String × β)) (k : String) (v : β),
      lookupA (updateA l k v) k = (lookupA l k).map (fun _ => v)
  | [], _, _ => rfl
  | (k₀, w) :: rest, k, v => by
    by_cases h : k₀ = k
    · simp [updateA, lookupA, h]
    · simp only [updateA, if_neg h, lookupA]
      exact lookupA_updateA_self rest k v

theorem lookupA_updateA_ne {β : Type} :
    ∀ (l : List (String × β)) (k : String) (v : β) (k' : String), k' ≠ k →
      lookupA (updateA l k v) k' = lookupA l k'
  | [], _, _, _, _ => rfl
  | (k₀, w) :: rest, k, v, k', hne => by
    by_cases h : k₀ = k
    · subst h
      simp only [updateA, if_pos rfl, lookupA]
      rw [if_neg (fun hc => hne hc.symm), if_neg (fun hc => hne hc.symm)]
    · simp only [updateA, if_neg h, lookupA]
      by_cases h' : k₀ = k'
      · rw [if_pos h', if_pos h']
      · rw [if_neg h', if_neg h']
        exact lookupA_updateA_ne rest k v k' hne

theorem updateA_updateA_self {β : Type} :
    ∀ (l : List (String × β)) (k : String) (v w : β),
      updateA (updateA l k v) k w = updateA l k w
  | [], _, _, _ => rfl
  | (k₀, u) :: rest, k, v, w => by
    by_cases h : k₀ = k
    · simp [updateA, h]
    · simp [updateA, h, updateA_updateA_self rest k v w]

theorem lookupA_isSome_iff {β : Type} :
    ∀ (l : List (String × β)) (k : String),
      (lookupA l k).isSome = true ↔ k ∈ l.map Prod.fst
  | [], k => by simp [lookupA]
  | (k₀, w) :: rest, k => by
    by_cases h : k₀ = k
    · simp [lookupA, h]
    · simp only [lookupA, if_neg h, List.map_cons, List.mem_cons]
      rw [lookupA_isSome_iff rest k]
      constructor
      · exact fun hm => Or.inr hm
      · rintro (hm | hm)
        · exact absurd hm.symm h
        · exact hm

theorem lookupA_eq_some_of_mem_nodup {β : Type} :
    ∀ {l : List (String × β)}, (l.map Prod.fst).Nodup →
      ∀ {k : String} {v : β}, (k, v) ∈ l → lookupA l k = some v := by
  intro l
  induction l with
  | nil => intro _ k v h; simp at h
  | cons e rest ih =>
    intro hn k v h
    obtain ⟨k₀, w⟩ := e
    simp only [List.map_cons, List.nodup_cons] at hn
    rcases List.mem_cons.mp h with h1 | h1
    · obtain ⟨hk, hv⟩ := Prod.mk.inj h1.symm
      simp [lookupA, hk, hv]
    · have hkne : k₀ ≠ k := by
        intro hc
        exact hn.1 (hc ▸ List.mem_map_of_mem Prod.fst h1)
      simp only [lookupA, if_neg hkne]
      exact ih hn.2 h1

theorem alist_ext_nodup {β : Type} :
    ∀ (l₁ l₂ : List (String × β)),
      l₁.map Prod.fst = l₂.map Prod.fst →
      (l₁.map Prod.fst).Nodup →
      (∀ k, lookupA l₁ k = lookupA l₂ k) → l₁ = l₂
  | [], [], _, _, _ => rfl
  | [], (k, v) :: r, hm, _, _ => by simp at hm
  | (k, v) :: r, [], hm, _, _ => by simp at hm
  | (k₁, v₁) :: r₁, (k₂, v₂) :: r₂, hm, hn, hl => by
    simp only [List.map_cons, List.cons.injEq] at hm
    simp only [List.map_cons, List.nodup_cons] at hn
    obtain ⟨hk, hmr⟩ := hm
    subst hk
    have hv : v₁ = v₂ := by
      have := hl k₁
      simp only [lookupA, if_pos rfl] at this
      exact Option.some.inj this
    subst hv
    have hlr : ∀ k, lookupA r₁ k = lookupA r₂ k := by
      intro k
      by_cases hkk : k = k₁
      · subst hkk
        have h1 : lookupA r₁ k = none := by
          rw [lookupA_none_iff_forall]
          intro e he hc
          exact hn.1 (hc ▸ List.mem_map_of_mem Prod.fst he)
        have h2 : lookupA r₂ k = none := by
          rw [lookupA_none_iff_forall]
          intro e he hc
          exact (hmr ▸ hn.1) (hc ▸ List.mem_map_of_mem Prod.fst he)
        rw [h1, h2]
      · have := hl k
        simp only [lookupA, if_neg (fun hc : k₁ = k => hkk hc.symm)] at this
        exact this
    rw [alist_ext_nodup r₁ r₂ hmr hn.2 hlr]

theorem foldl_updateA_map_fst {β : Type} :
    ∀ (ps : List (String × β)) (l : List (String × β)),
      (ps.foldl (fun cs p => updateA cs p.1 p.2) l).map Prod.fst = l.map Prod.fst
  | [], l => rfl
  | p :: ps, l => by
    simp only [List.foldl_cons]
    rw [foldl_updateA_map_fst ps _, map_fst_updateA]

theorem foldl_updateA_not_mem {β : Type} :
    ∀ (ps : List (String × β)) (l : List (String × β)) (k : String),
      k ∉ ps.map Prod.fst →
      lookupA (ps.foldl (fun cs p => updateA cs p.1 p.2) l) k = lookupA l k
  | [], l, k, _ => rfl
  | p :: ps, l, k, hk => by
    simp only [List.map_cons, List.mem_cons] at hk
    push_neg at hk
    simp only [List.foldl_cons]
    rw [foldl_updateA_not_mem ps _ k hk.2, lookupA_updateA_ne l p.1 p.2 k hk.1]

theorem foldl_updateA_mem {β : Type} :
    ∀ (ps : List (String × β)) (l : List (String × β)),
      (ps.map Prod.fst).Nodup →
      ∀ p ∈ ps,
        lookupA (ps.foldl (fun cs q => updateA cs q.1 q.2) l) p.1 =
          (lookupA l p.1).map (fun _ => p.2)
  | [], l, _, p, hp => by simp at hp
  | q :: ps, l, hn, p, hp => by
    simp only [List.map_cons, List.nodup_cons] at hn
    simp only [List.foldl_cons]
    rcases List.mem_cons.mp hp with h1 | h1
    · subst h1
      rw [foldl_updateA_not_mem ps _ p.1 hn.1, lookupA_updateA_self]
    · have hne : p.1 ≠ q.1 := by
        intro hc
        exact hn.1 (hc ▸ List.mem_map_of_mem Prod.fst h1)
      rw [foldl_updateA_mem ps _ hn.2 p h1, lookupA_updateA_ne l q.1 q.2 p.1 hne]

theorem foldl_updateA_restores {β : Type} (ps : List (String × β))
    (orig cur : List (String × β))
    (hmap : cur.map Prod.fst = orig.map Prod.fst)
    (hnodup : (orig.map Prod.fst).Nodup)
    (hpn : (ps.map Prod.fst).Nodup)
    (hvals : ∀ p ∈ ps, lookupA orig p.1 = some p.2)
    (hout : ∀ k, k ∉ ps.map Prod.fst → lookupA cur k = lookupA orig k) :
    ps.foldl (fun cs p => updateA cs p.1 p.2) cur = orig := by
  apply alist_ext_nodup
  · rw [foldl_updateA_map_fst, hmap]
  · rw [foldl_updateA_map_fst, hmap]
    exact hnodup
  · intro k
    by_cases hk : k ∈ ps.map Prod.fst
    · obtain ⟨p, hp, hpk⟩ := List.mem_map.mp hk
      subst hpk
      rw [foldl_updateA_mem ps cur hpn p hp]
      have hsome : (lookupA cur p.1).isSome = true := by
        rw [lookupA_isSome_iff, hmap, ← lookupA_isSome_iff, hvals p hp]
        rfl
      obtain ⟨w, hw⟩ := Option.isSome_iff_exists.mp hsome
      rw [hw, hvals p hp]
      rfl
    · rw [foldl_updateA_not_mem ps cur k hk]
      exact hout k hk

theorem canonicalSessionSwitch_ok {id pl kind : String} {v : Val} {st st' : LibState}
    (h : canonicalSessionSwitch id pl kind v st = .ok st') :
    ∃ (aname : String) (pool : List (String × Nat)) (inst : Nat),
      v = .str aname ∧ lookupA st.pools pl = some pool ∧
      lookupA pool aname = some inst ∧
      st' = { st with curSession := updateA st.curSession id inst } := by
  unfold canonicalSessionSwitch at h
  cases v with
  | str aname =>
    dsimp only at h
    cases hpool : lookupA st.pools pl with
    | none => rw [hpool] at h; exact absurd h (by simp)
    | some pool =>
      rw [hpool] at h
      dsimp only at h
      cases hinst : lookupA pool aname with
      | none => rw [hinst] at h; exact absurd h (by simp)
      | some inst =>
        rw [hinst] at h
        dsimp only at h
        simp only [Except.ok.injEq] at h
        exact ⟨aname, pool, inst, rfl, rfl, hinst, h.symm⟩
  | nat n => exact absurd h (by simp)
  | pair a b => exact absurd h (by simp)

theorem canonicalContextSwitch_ok {id kind : String} {valid : List String}
    {v : Val} {st st' : LibState}
    (h : canonicalContextSwitch id kind valid v st = .ok st') :
    ∃ cname : String,
      v = .str cname ∧ valid.contains cname = true ∧
      st' = { st with curContext := updateA st.curContext id cname } := by
  unfold canonicalContextSwitch at h
  cases v with
  | str cname =>
    dsimp only at h
    by_cases hc : valid.contains cname = true
    · rw [if_pos hc] at h
      simp only [Except.ok.injEq] at h
      exact ⟨cname, rfl, hc, h.symm⟩
    · rw [if_neg hc] at h
      exact absurd h (by simp)
  | nat n => exact absurd h (by simp)
  | pair a b => exact absurd h (by simp)

theorem find?_self_of_nodup_sess (L : Lib)
    (hids : (L.sessionHandlers.map SessionHandler.identifier).Nodup) :
    ∀ h ∈ L.sessionHandlers,
      getSwitchSession L h.identifier = .ok h.switch := by
  unfold getSwitchSession
  suffices hs : ∀ (l : List SessionHandler),
      (l.map SessionHandler.identifier).Nodup →
      ∀ h ∈ l, l.find? (fun h' => h'.identifier == h.identifier) = some h by
    intro h hm
    rw [hs L.sessionHandlers hids h hm]
  intro l
  induction l with
  | nil => intro _ h hm; simp at hm
  | cons h₀ rest ih =>
    intro hn h hm
    simp only [List.map_cons, List.nodup_cons] at hn
    rcases List.mem_cons.mp hm with h1 | h1
    · subst h1
      rw [List.find?_cons_of_pos _ (by simp)]
    · by_cases heq : h₀.identifier = h.identifier
      · exact absurd (heq ▸ List.mem_map_of_mem SessionHandler.identifier h1) hn.1
      · rw [List.find?_cons_of_neg _ (by simp [heq])]
        exact ih hn.2 h h1

theorem getCurSession_ok {st : LibState} {id : String} {n : Nat}
    (h : getCurSession st id = .ok n) : lookupA st.curSession id = some n := by
  unfold getCurSession at h
  cases hl : lookupA st.curSession id with
  | none => rw [hl] at h; exact absurd h (by simp)
  | some m =>
    rw [hl] at h
    simp only [Except.ok.injEq] at h
    rw [h]

theorem getCurContext_ok {st : LibState} {id : String} {c : String}
    (h : getCurContext st id = .ok c) : lookupA st.curContext id = some c := by
  unfold getCurContext at h
  cases hl : lookupA st.curContext id with
  | none => rw [hl] at h; exact absurd h (by simp)
  | some m =>
    rw [hl] at h
    simp only [Except.ok.injEq] at h
    rw [h]

theorem find?_self_of_nodup_ctx (L : Lib)
    (hids : (L.contextHandlers.map ContextHandler.identifier).Nodup) :
    ∀ h ∈ L.contextHandlers,
      getSwitchContext L h.identifier = .ok h.switch := by
  unfold getSwitchContext
  suffices hs : ∀ (l : List ContextHandler),
      (l.map ContextHandler.identifier).Nodup →
      ∀ h ∈ l, l.find? (fun h' => h'.identifier == h.identifier) = some h by
    intro h hm
    rw [hs L.contextHandlers hids h hm]
  intro l
  induction l with
  | nil => intro _ h hm; simp at hm
  | cons h₀ rest ih =>
    intro hn h hm
    simp only [List.map_cons, List.nodup_cons] at hn
    rcases List.mem_cons.mp hm with h1 | h1
    · subst h1
      rw [List.find?_cons_of_pos _ (by simp)]
    · by_cases heq : h₀.identifier = h.identifier
      · exact absurd (heq ▸ List.mem_map_of_mem ContextHandler.identifier h1) hn.1
      · rw [List.find?_cons_of_neg _ (by simp [heq])]
        exact ih hn.2 h h1

theorem switchSessions_ok_spec (L : Lib)
    (hcanon : ∀ h ∈ L.sessionHandlers, h.Canonical)
    (hids : (L.sessionHandlers.map SessionHandler.identifier).Nodup) :
    ∀ hs : List SessionHandler, (∀ h ∈ hs, h ∈ L.sessionHandlers) →
    ∀ (kwargs : List (String × Val)) (st : LibState)
      (acc : List ((String × String) × Nat)) (st₁ : LibState)
      (k₁ : List (String × Val)) (acc' : List ((String × String) × Nat)),
      (kwargs.map Prod.fst).Nodup →
      switchSessions L hs kwargs st acc = (st₁, .ok (k₁, none, acc')) →
      ∃ upd, acc' = acc ++ upd ∧ SessPhaseOut hs kwargs st st₁ k₁ upd := by
  intro hs
  induction hs with
  | nil =>
    intro _ kwargs st acc st₁ k₁ acc' hkn hrun
    simp only [switchSessions, Prod.mk.injEq, Except.ok.injEq] at hrun
    obtain ⟨h1, h2, h3, h4⟩ := hrun
    subst h1
    subst h2
    subst h4
    refine ⟨[], by simp, ?_⟩
    exact
      { pools := rfl, ctx := rfl, keys := rfl, ids := by simp, inKw := by simp,
        handler := by simp, prevs := by simp, outside := fun _ _ => rfl,
        keysLeft := hkn }
  | cons h hs ih =>
    intro hsub kwargs st acc st₁ k₁ acc' hkn hrun
    have hsubtl : ∀ h' ∈ hs, h' ∈ L.sessionHandlers :=
      fun h' hm => hsub h' (List.mem_cons_of_mem _ hm)
    have hmem : h ∈ L.sessionHandlers := hsub h (List.mem_cons_self _ _)
    have weaken : ∀ upd, SessPhaseOut hs kwargs st st₁ k₁ upd →
        SessPhaseOut (h :: hs) kwargs st st₁ k₁ upd := by
      intro upd hout
      exact { hout with
        handler := fun en hen =>
          let ⟨h', hm, p⟩ := hout.handler en hen
          ⟨h', List.mem_cons_of_mem _ hm, p⟩ }
    simp only [switchSessions] at hrun
    by_cases hauto : h.autoExplicit = false
    · rw [if_pos hauto] at hrun
      obtain ⟨upd, hacc, hout⟩ := ih hsubtl kwargs st acc st₁ k₁ acc' hkn hrun
      exact ⟨upd, hacc, weaken upd hout⟩
    · rw [if_neg hauto] at hrun
      cases hp : popA kwargs h.identifier with
      | none =>
        rw [hp] at hrun
        dsimp only at hrun
        obtain ⟨upd, hacc, hout⟩ := ih hsubtl kwargs st acc st₁ k₁ acc' hkn hrun
        exact ⟨upd, hacc, weaken upd hout⟩
      | some p =>
        obtain ⟨sname, kwargs'⟩ := p
        rw [hp] at hrun
        dsimp only at hrun
        cases hcur : getCurSession st h.identifier with
        | error e => rw [hcur] at hrun; exact absurd hrun (by simp)
        | ok prev =>
          rw [hcur] at hrun
          dsimp only at hrun
          cases hsw : getSwitchSession L h.identifier with
          | error e => rw [hsw] at hrun; exact absurd hrun (by simp)
          | ok sw =>
            rw [hsw] at hrun
            dsimp only at hrun
            have hswh : sw = h.switch := by
              have hself := find?_self_of_nodup_sess L hids h hmem
              rw [hsw] at hself
              exact Except.ok.inj hself
            cases hrun2 : sw sname st with
            | error e =>
              rw [hrun2] at hrun
              dsimp only at hrun
              by_cases hkind : e.kind = h.errKind
              · rw [if_pos hkind] at hrun
                simp at hrun
              · rw [if_neg hkind] at hrun
                exact absurd hrun (by simp)
            | ok st' =>
              rw [hrun2] at hrun
              dsimp only at hrun
              have hcanshape : canonicalSessionSwitch h.identifier h.pluralIdentifier
                  h.errKind sname st = .ok st' := by
                rw [← hcanon h hmem, ← hswh]
                exact hrun2
              obtain ⟨aname, pool, inst, hv, hpool, hinst, hst'⟩ :=
                canonicalSessionSwitch_ok hcanshape
              have hkn' := nodup_keys_popA hp hkn
              have hidnotin : h.identifier ∉ kwargs'.map Prod.fst :=
                not_mem_keys_popA hp hkn
              obtain ⟨upd', hacc', hout'⟩ := ih hsubtl kwargs' st' _ st₁ k₁ acc' hkn' hrun
              subst hst'
              refine ⟨((h.identifier, h.pluralIdentifier), prev) :: upd', ?_, ?_⟩
              · rw [hacc']
                simp
              · refine
                  { pools := ?_, ctx := ?_, keys := ?_, ids := ?_, inKw := ?_,
                    handler := ?_, prevs := ?_, outside := ?_,
                    keysLeft := hout'.keysLeft }
                · rw [hout'.pools]
                · rw [hout'.ctx]
                · rw [hout'.keys]
                  exact map_fst_updateA st.curSession h.identifier inst
                · simp only [List.map_cons, List.nodup_cons]
                  constructor
                  · intro hc
                    obtain ⟨en, hen, hid⟩ := List.mem_map.mp hc
                    exact hidnotin (hid ▸ hout'.inKw en hen)
                  · exact hout'.ids
                · intro en hen
                  rcases List.mem_cons.mp hen with h1 | h1
                  · subst h1
                    exact (lookupA_isSome_iff kwargs h.identifier).mp
                      (by rw [popA_lookup hp]; rfl)
                  · exact mem_keys_popA hp (hout'.inKw en h1)
                · intro en hen
                  rcases List.mem_cons.mp hen with h1 | h1
                  · subst h1
                    exact ⟨h, List.mem_cons_self _ _, rfl, rfl⟩
                  · obtain ⟨h', hm, p1, p2⟩ := hout'.handler en h1
                    exact ⟨h', List.mem_cons_of_mem _ hm, p1, p2⟩
                · intro en hen
                  rcases List.mem_cons.mp hen with h1 | h1
                  · subst h1
                    exact getCurSession_ok hcur
                  · have hne : en.1.1 ≠ h.identifier :=
                      fun hc => hidnotin (hc ▸ hout'.inKw en h1)
                    have hp' := hout'.prevs en h1
                    rw [show ({ st with
                        curSession := updateA st.curSession h.identifier inst } :
                          LibState).curSession =
                        updateA st.curSession h.identifier inst from rfl] at hp'
                    rw [lookupA_updateA_ne st.curSession h.identifier inst en.1.1 hne]
                      at hp'
                    exact hp'
                · intro id hid
                  simp only [List.map_cons, List.mem_cons] at hid
                  push_neg at hid
                  rw [hout'.outside id hid.2]
                  exact lookupA_updateA_ne st.curSession h.identifier inst id hid.1

theorem switchContexts_ok_spec (L : Lib)
    (hcanon : ∀ h ∈ L.contextHandlers, h.Canonical)
    (hids : (L.contextHandlers.map ContextHandler.identifier).Nodup) :
    ∀ hs : List ContextHandler, (∀ h ∈ hs, h ∈ L.contextHandlers) →
    ∀ (kwargs : List (String × Val)) (st : LibState)
      (acc : List (String × String)) (st₁ : LibState)
      (k₁ : List (String × Val)) (acc' : List (String × String)),
      (kwargs.map Prod.fst).Nodup →
      switchContexts L hs kwargs st acc = (st₁, .ok (k₁, none, acc')) →
      ∃ upd, acc' = acc ++ upd ∧ CtxPhaseOut hs kwargs st st₁ k₁ upd := by
  intro hs
  induction hs with
  | nil =>
    intro _ kwargs st acc st₁ k₁ acc' hkn hrun
    simp only [switchContexts, Prod.mk.injEq, Except.ok.injEq] at hrun
    obtain ⟨h1, h2, h3, h4⟩ := hrun
    subst h1
    subst h2
    subst h4
    refine ⟨[], by simp, ?_⟩
    exact
      { pools := rfl, sess := rfl, keys := rfl, ids := by simp, inKw := by simp,
        handler := by simp, prevs := by simp, outside := fun _ _ => rfl,
        keysLeft := hkn }
  | cons h hs ih =>
    intro hsub kwargs st acc st₁ k₁ acc' hkn hrun
    have hsubtl : ∀ h' ∈ hs, h' ∈ L.contextHandlers :=
      fun h' hm => hsub h' (List.mem_cons_of_mem _ hm)
    have hmem : h ∈ L.contextHandlers := hsub h (List.mem_cons_self _ _)
    have weaken : ∀ upd, CtxPhaseOut hs kwargs st st₁ k₁ upd →
        CtxPhaseOut (h :: hs) kwargs st st₁ k₁ upd := by
      intro upd hout
      exact { hout with
        handler := fun en hen =>
          let ⟨h', hm, p⟩ := hout.handler en hen
          ⟨h', List.mem_cons_of_mem _ hm, p⟩ }
    simp only [switchContexts] at hrun
    by_cases hauto : h.autoExplicit = false
    · rw [if_pos hauto] at hrun
      obtain ⟨upd, hacc, hout⟩ := ih hsubtl kwargs st acc st₁ k₁ acc' hkn hrun
      exact ⟨upd, hacc, weaken upd hout⟩
    · rw [if_neg hauto] at hrun
      cases hp : popA kwargs h.identifier with
      | none =>
        rw [hp] at hrun
        dsimp only at hrun
        obtain ⟨upd, hacc, hout⟩ := ih hsubtl kwargs st acc st₁ k₁ acc' hkn hrun
        exact ⟨upd, hacc, weaken upd hout⟩
      | some p =>
        obtain ⟨ctxname, kwargs'⟩ := p
        rw [hp] at hrun
        dsimp only at hrun
        cases hcur : getCurContext st h.identifier with
        | error e => rw [hcur] at hrun; exact absurd hrun (by simp)
        | ok prev =>
          rw [hcur] at hrun
          dsimp only at hrun
          cases hsw : getSwitchContext L h.identifier with
          | error e => rw [hsw] at hrun; exact absurd hrun (by simp)
          | ok sw =>
            rw [hsw] at hrun
            dsimp only at hrun
            have hswh : sw = h.switch := by
              have hself := find?_self_of_nodup_ctx L hids h hmem
              rw [hsw] at hself
              exact Except.ok.inj hself
            cases hrun2 : sw ctxname st with
            | error e =>
              rw [hrun2] at hrun
              dsimp only at hrun
              by_cases hkind : e.kind = h.errKind
              · rw [if_pos hkind] at hrun
                simp at hrun
              · rw [if_neg hkind] at hrun
                exact absurd hrun (by simp)
            | ok st' =>
              rw [hrun2] at hrun
              dsimp only at hrun
              have hcanshape : canonicalContextSwitch h.identifier h.errKind
                  h.contexts ctxname st = .ok st' := by
                rw [← hcanon h hmem, ← hswh]
                exact hrun2
              obtain ⟨cname, hv, hvalid, hst'⟩ := canonicalContextSwitch_ok hcanshape
              have hkn' := nodup_keys_popA hp hkn
              have hidnotin : h.identifier ∉ kwargs'.map Prod.fst :=
                not_mem_keys_popA hp hkn
              obtain ⟨upd', hacc', hout'⟩ := ih hsubtl kwargs' st' _ st₁ k₁ acc' hkn' hrun
              subst hst'
              refine ⟨(h.identifier, prev) :: upd', ?_, ?_⟩
              · rw [hacc']
                simp
              · refine
                  { pools := ?_, sess := ?_, keys := ?_, ids := ?_, inKw := ?_,
                    handler := ?_, prevs := ?_, outside := ?_,
                    keysLeft := hout'.keysLeft }
                · rw [hout'.pools]
                · rw [hout'.sess]
                · rw [hout'.keys]
                  exact map_fst_updateA st.curContext h.identifier cname
                · simp only [List.map_cons, List.nodup_cons]
                  constructor
                  · intro hc
                    obtain ⟨en, hen, hid⟩ := List.mem_map.mp hc
                    exact hidnotin (hid ▸ hout'.inKw en hen)
                  · exact hout'.ids
                · intro en hen
                  rcases List.mem_cons.mp hen with h1 | h1
                  · subst h1
                    exact (lookupA_isSome_iff kwargs h.identifier).mp
                      (by rw [popA_lookup hp]; rfl)
                  · exact mem_keys_popA hp (hout'.inKw en h1)
                · intro en hen
                  rcases List.mem_cons.mp hen with h1 | h1
                  · subst h1
                    exact ⟨h, List.mem_cons_self _ _, rfl⟩
                  · obtain ⟨h', hm, p1⟩ := hout'.handler en h1
                    exact ⟨h', List.mem_cons_of_mem _ hm, p1⟩
                · intro en hen
                  rcases List.mem_cons.mp hen with h1 | h1
                  · subst h1
                    exact getCurContext_ok hcur
                  · have hne : en.1 ≠ h.identifier :=
                      fun hc => hidnotin (hc ▸ hout'.inKw en h1)
                    have hp' := hout'.prevs en h1
                    rw [show ({ st with
                        curContext := updateA st.curContext h.identifier cname } :
                          LibState).curContext =
                        updateA st.curContext h.identifier cname from rfl] at hp'
                    rw [lookupA_updateA_ne st.curContext h.identifier cname en.1 hne]
                      at hp'
                    exact hp'
                · intro id hid
                  simp only [List.map_cons, List.mem_cons] at hid
                  push_neg at hid
                  rw [hout'.outside id hid.2]
                  exact lookupA_updateA_ne st.curContext h.identifier cname id hid.1

theorem libState_ext {x y : LibState}
    (h1 : x.curSession = y.curSession) (h2 : x.pools = y.pools)
    (h3 : x.curContext = y.curContext) : x = y := by
  cases x
  cases y
  dsimp only at h1 h2 h3
  subst h1
  subst h2
  subst h3
  rfl

theorem restoreContextsPhase_spec (L : Lib)
    (hcanon : ∀ h ∈ L.contextHandlers, h.Canonical)
    (hids : (L.contextHandlers.map ContextHandler.identifier).Nodup) :
    ∀ (entries : List (String × String)) (s : LibState),
      (∀ en ∈ entries, ∃ h ∈ L.contextHandlers, h.identifier = en.1 ∧
        h.contexts.contains en.2 = true) →
      restoreContextsPhase L entries s =
        ({ s with curContext :=
            entries.foldl (fun cc en => updateA cc en.1 en.2) s.curContext },
         .ok ()) := by
  intro entries
  induction entries with
  | nil => intro s _; rfl
  | cons en rest ih =>
    intro s hcond
    obtain ⟨id, cname⟩ := en
    obtain ⟨h, hm, hid, hc⟩ := hcond _ (List.mem_cons_self _ _)
    subst hid
    simp only [restoreContextsPhase]
    rw [find?_self_of_nodup_ctx L hids h hm]
    dsimp only
    rw [hcanon h hm]
    unfold canonicalContextSwitch
    dsimp only
    rw [if_pos hc]
    dsimp only
    rw [ih _ (fun en hen => hcond en (List.mem_cons_of_mem _ hen))]
    rfl

theorem restoreSessionAliases_spec (L : Lib) (id pl kind : String) (session : Nat)
    (hsw : getSwitchSession L id = .ok (canonicalSessionSwitch id pl kind))
    (P : List (String × Nat)) (hdup : (P.map Prod.fst).Nodup) :
    ∀ (pool : List (String × Nat)) (s : LibState),
      lookupA s.pools pl = some P →
      (∀ x ∈ pool, x ∈ P) →
      restoreSessionAliases L id session pool s =
        (if pool.any (fun x => x.2 == session) then
          { s with curSession := updateA s.curSession id session }
        else s, .ok ()) := by
  intro pool
  induction pool with
  | nil => intro s _ _; simp [restoreSessionAliases]
  | cons x rest ih =>
    intro s hP hsub
    obtain ⟨aname, inst⟩ := x
    simp only [restoreSessionAliases]
    by_cases hm : inst = session
    · rw [if_pos hm, hsw]
      dsimp only
      unfold canonicalSessionSwitch
      dsimp only
      rw [hP]
      dsimp only
      have hmemP : (aname, inst) ∈ P := hsub _ (List.mem_cons_self _ _)
      rw [lookupA_eq_some_of_mem_nodup hdup hmemP]
      dsimp only
      subst hm
      rw [ih { s with curSession := updateA s.curSession id inst } hP
        (fun y hy => hsub y (List.mem_cons_of_mem _ hy))]
      by_cases hr : rest.any (fun y => y.2 == inst) = true
      · simp [hr, updateA_updateA_self]
      · simp [hr]
    · rw [if_neg hm]
      rw [ih s hP (fun y hy => hsub y (List.mem_cons_of_mem _ hy))]
      have hbeq : (inst == session) = false := by
        simp [hm]
      simp only [List.any_cons, hbeq, Bool.false_or]

theorem restoreSessionsPhase_spec (L : Lib)
    (hcanon : ∀ h ∈ L.sessionHandlers, h.Canonical)
    (hids : (L.sessionHandlers.map SessionHandler.identifier).Nodup) :
    ∀ (entries : List ((String × String) × Nat)) (s : LibState),
      (∀ en ∈ entries, ∃ h ∈ L.sessionHandlers, h.identifier = en.1.1 ∧
        h.pluralIdentifier = en.1.2 ∧
        ∃ P, lookupA s.pools en.1.2 = some P ∧ (P.map Prod.fst).Nodup ∧
          ∃ a, (a, en.2) ∈ P) →
      restoreSessionsPhase L entries s =
        ({ s with curSession :=
            entries.foldl (fun cs en => updateA cs en.1.1 en.2) s.curSession },
         .ok ()) := by
  intro entries
  induction entries with
  | nil => intro s _; rfl
  | cons en rest ih =>
    intro s hcond
    obtain ⟨⟨id, pl⟩, session⟩ := en
    obtain ⟨h, hm, hid, hpl, P, hP, hdup, a, haP⟩ := hcond _ (List.mem_cons_self _ _)
    subst hid
    subst hpl
    simp only [restoreSessionsPhase]
    have hgp : getPool s h.pluralIdentifier = .ok P := by
      unfold getPool
      rw [hP]
    rw [hgp]
    dsimp only
    have hsw : getSwitchSession L h.identifier =
        .ok (canonicalSessionSwitch h.identifier h.pluralIdentifier h.errKind) := by
      rw [find?_self_of_nodup_sess L hids h hm, hcanon h hm]
    rw [restoreSessionAliases_spec L h.identifier h.pluralIdentifier h.errKind session
      hsw P hdup P s hP (fun x hx => hx)]
    have hany : P.any (fun x => x.2 == session) = true := by
      rw [List.any_eq_true]
      exact ⟨(a, session), haP, by simp⟩
    rw [if_pos hany]
    dsimp only
    rw [ih { s with curSession := updateA s.curSession h.identifier session }
      (fun en hen => hcond en (List.mem_cons_of_mem _ hen))]
    rfl

theorem finishCall_some_error (L : Lib) (e : Err) (res : Option Val)
    (rc : List (String × String)) (rs : List ((String × String) × Nat)) (s : LibState) :
    ∃ (s' : LibState) (e' : Err),
      finishCall L (some e) res rc rs s = (s', .error e') := by
  unfold finishCall
  cases hrc : restoreContextsPhase L rc s with
  | mk s₁ r₁ =>
    cases r₁ with
    | error e₁ => exact ⟨s₁, e₁, rfl⟩
    | ok u =>
      cases u
      dsimp only
      cases hrs : restoreSessionsPhase L rs s₁ with
      | mk s₂ r₂ =>
        cases r₂ with
        | error e₂ => exact ⟨s₂, e₂, rfl⟩
        | ok u2 =>
          cases u2
          dsimp only
          exact ⟨s₂, e, rfl⟩

theorem keywordCall_canonical_restores (kw : Keyword) (args : List Val)
    (kwargs : List (String × Val)) (st : LibState)
    (hcs : CanonicalSetup kw) (hwf : WfState kw st)
    (hkn : (kwargs.map Prod.fst).Nodup)
    (st₁ st₂ : LibState) (k₁ k₂ : List (String × Val))
    (accS : List ((String × String) × Nat)) (accC : List (String × String))
    (hph1 : switchSessions kw.lib kw.lib.sessionHandlers kwargs st [] =
      (st₁, .ok (k₁, none, accS)))
    (hph2 : switchContexts kw.lib kw.contextHandlers k₁ st₁ [] =
      (st₂, .ok (k₂, none, accC))) :
    keywordCall kw args kwargs st = (st, dispatchPhase kw st₂ args k₂) := by
  obtain ⟨updS, haccS, hS⟩ := switchSessions_ok_spec kw.lib hcs.sess hcs.sessIds
    kw.lib.sessionHandlers (fun h hm => hm) kwargs st [] st₁ k₁ accS hkn hph1
  rw [List.nil_append] at haccS
  subst haccS
  obtain ⟨updC, haccC, hC⟩ := switchContexts_ok_spec kw.lib hcs.ctx hcs.ctxIds
    kw.contextHandlers hcs.derivedSub k₁ st₁ [] st₂ k₂ accC hS.keysLeft hph2
  rw [List.nil_append] at haccC
  subst haccC
  have hctxCond : ∀ en ∈ accC, ∃ h ∈ kw.lib.contextHandlers, h.identifier = en.1 ∧
      h.contexts.contains en.2 = true := by
    intro en hen
    obtain ⟨h, hm, hid⟩ := hC.handler en hen
    refine ⟨h, hcs.derivedSub h hm, hid, ?_⟩
    obtain ⟨cur, hcur, hcurv⟩ := hwf.ctx h hm
    have hprev := hC.prevs en hen
    rw [hS.ctx, ← hid, hcur] at hprev
    have he2 : cur = en.2 := Option.some.inj hprev
    rw [← he2]
    exact List.elem_iff.mpr hcurv
  have hrc := restoreContextsPhase_spec kw.lib hcs.ctx hcs.ctxIds accC st₂ hctxCond
  have hsessCond : ∀ en ∈ accS, ∃ h ∈ kw.lib.sessionHandlers, h.identifier = en.1.1 ∧
      h.pluralIdentifier = en.1.2 ∧
      ∃ P, lookupA st₂.pools en.1.2 = some P ∧
        (P.map Prod.fst).Nodup ∧ ∃ a, (a, en.2) ∈ P := by
    intro en hen
    obtain ⟨h, hm, hid, hpl⟩ := hS.handler en hen
    obtain ⟨cur, P, hcur, hpool, hdup, a, haP⟩ := hwf.sess h hm
    refine ⟨h, hm, hid, hpl, P, ?_, hdup, a, ?_⟩
    · rw [hC.pools, hS.pools, ← hpl]
      exact hpool
    · have hprev := hS.prevs en hen
      rw [← hid, hcur] at hprev
      exact (Option.some.inj hprev) ▸ haP
  have hrs := restoreSessionsPhase_spec kw.lib hcs.sess hcs.sessIds accS
    { st₂ with curContext := accC.foldl (fun cc en => updateA cc en.1 en.2) st₂.curContext }
    hsessCond
  have hctxEq : accC.foldl (fun cc en => updateA cc en.1 en.2) st₂.curContext
      = st.curContext := by
    apply foldl_updateA_restores accC st.curContext st₂.curContext
    · rw [hC.keys, hS.ctx]
    · exact hwf.ctxKeys
    · exact hC.ids
    · intro p hp
      have hpv := hC.prevs p hp
      rw [hS.ctx] at hpv
      exact hpv
    · intro k hk
      have hko := hC.outside k hk
      rw [hS.ctx] at hko
      exact hko
  have hsessEq : accS.foldl (fun cs en => updateA cs en.1.1 en.2) st₂.curSession
      = st.curSession := by
    have hfold : accS.foldl (fun cs en => updateA cs en.1.1 en.2) st₂.curSession
        = (accS.map (fun en => (en.1.1, en.2))).foldl
            (fun cs p => updateA cs p.1 p.2) st₂.curSession := by
      rw [List.foldl_map]
    rw [hfold]
    apply foldl_updateA_restores (accS.map (fun en => (en.1.1, en.2)))
      st.curSession st₂.curSession
    · rw [hC.sess, hS.keys]
    · exact hwf.sessKeys
    · show ((accS.map (fun en => (en.1.1, en.2))).map Prod.fst).Nodup
      rw [List.map_map]
      exact hS.ids
    · intro p hp
      obtain ⟨en, hen, hpe⟩ := List.mem_map.mp hp
      subst hpe
      exact hS.prevs en hen
    · intro k hk
      have hk' : k ∉ accS.map (fun en => en.1.1) := by
        intro hc
        apply hk
        rw [List.map_map]
        exact hc
      have hko := hS.outside k hk'
      rw [hC.sess]
      exact hko
  have hfinal : (LibState.mk
      (accS.foldl (fun cs en => updateA cs en.1.1 en.2) st₂.curSession)
      st₂.pools
      (accC.foldl (fun cc en => updateA cc en.1 en.2) st₂.curContext)) = st := by
    apply libState_ext
    · exact hsessEq
    · show st₂.pools = st.pools
      rw [hC.pools, hS.pools]
    · exact hctxEq
  unfold keywordCall
  rw [hph1]
  dsimp only
  rw [hph2]
  dsimp only
  cases hdp : dispatchPhase kw st₂ args k₂ with
  | ok v =>
    dsimp only
    unfold finishCall
    rw [hrc]
    dsimp only
    rw [hrs]
    dsimp only
    exact congrArg (fun s => ((s, Except.ok v) : LibState × Except Err Val)) hfinal
  | error e =>
    dsimp only
    unfold finishCall
    rw [hrc]
    dsimp only
    rw [hrs]
    dsimp only
    exact congrArg (fun s => ((s, Except.error e) : LibState × Except Err Val)) hfinal

theorem canonicalSetup_wLib (kw : Keyword) (hl : kw.lib = wLib)
    (hc : kw.contextHandlers = [wCtx]) : CanonicalSetup kw := by
  constructor
  · rw [hl]
    intro h hm
    rw [show wLib.sessionHandlers = [wSess] from rfl, List.mem_singleton] at hm
    subst hm
    rfl
  · rw [hl]
    intro h hm
    rw [show wLib.contextHandlers = [wCtx] from rfl, List.mem_singleton] at hm
    subst hm
    rfl
  · rw [hl, hc]
    intro h hm
    exact hm
  · rw [hl]
    decide
  · rw [hl]
    decide

theorem wfState_wLib (kw : Keyword) (hl : kw.lib = wLib)
    (hc : kw.contextHandlers = [wCtx]) : WfState kw wSt := by
  constructor
  · decide
  · decide
  · rw [hl]
    intro h hm
    rw [show wLib.sessionHandlers = [wSess] from rfl, List.mem_singleton] at hm
    subst hm
    exact ⟨1, [("A", 1), ("B", 2)], by decide, by decide, by decide, "A", by decide⟩
  · rw [hc]
    intro h hm
    rw [List.mem_singleton] at hm
    subst hm
    exact ⟨"normal", by decide, by decide⟩

/-- C1: any call of the engine that returns without raising leaves every
session handler kind's current session and the active context state of the
library instance exactly as they were before the call — the auxiliary
session/context mutation is always rolled back (the restoration phase
rebuilds the pre-call state entry by entry). -/
theorem c1_rollback (kw : Keyword) (args : List Val) (kwargs : List (String × Val))
    (st st' : LibState) (v : Val)
    (hcs : CanonicalSetup kw) (hwf : WfState kw st)
    (hkn : (kwargs.map Prod.fst).Nodup)
    (hrun : keywordCall kw args kwargs st = (st', .ok v)) :
    (∀ h ∈ kw.lib.sessionHandlers,
      lookupA st'.curSession h.identifier = lookupA st.curSession h.identifier) ∧
    st'.curContext = st.curContext := by
  cases hph1 : switchSessions kw.lib kw.lib.sessionHandlers kwargs st [] with
  | mk stA r1 =>
    cases r1 with
    | error e =>
      unfold keywordCall at hrun
      rw [hph1] at hrun
      dsimp only at hrun
      simp at hrun
    | ok trip =>
      obtain ⟨k₁, err₁, accS⟩ := trip
      cases err₁ with
      | some e =>
        unfold keywordCall at hrun
        rw [hph1] at hrun
        dsimp only at hrun
        obtain ⟨s', e', hfc⟩ := finishCall_some_error kw.lib e none [] accS stA
        rw [hfc] at hrun
        simp at hrun
      | none =>
        cases hph2 : switchContexts kw.lib kw.contextHandlers k₁ stA [] with
        | mk stB r2 =>
          cases r2 with
          | error e =>
            unfold keywordCall at hrun
            rw [hph1] at hrun
            dsimp only at hrun
            rw [hph2] at hrun
            dsimp only at hrun
            simp at hrun
          | ok trip2 =>
            obtain ⟨k₂, err₂, accC⟩ := trip2
            cases err₂ with
            | some e =>
              unfold keywordCall at hrun
              rw [hph1] at hrun
              dsimp only at hrun
              rw [hph2] at hrun
              dsimp only at hrun
              obtain ⟨s', e', hfc⟩ := finishCall_some_error kw.lib e none accC accS stB
              rw [hfc] at hrun
              simp at hrun
            | none =>
              rw [keywordCall_canonical_restores kw args kwargs st hcs hwf hkn
                stA stB k₁ k₂ accS accC hph1 hph2] at hrun
              have h1 : st = st' := congrArg Prod.fst hrun
              subst h1
              exact ⟨fun h _ => rfl, rfl⟩

/-- Witness for C1: the succeeding fixture call switches session and
context, returns 7, and hands back the original library state. -/
theorem c1_witness :
    keywordCall wKw [] wKwargs wSt = (wSt, Except.ok (Val.nat 7)) ∧
    ((∀ h ∈ wKw.lib.sessionHandlers,
        lookupA wSt.curSession h.identifier = lookupA wSt.curSession h.identifier) ∧
      wSt.curContext = wSt.curContext) :=
  ⟨by decide, c1_rollback wKw [] wKwargs wSt wSt (Val.nat 7)
    (canonicalSetup_wLib wKw rfl rfl) (wfState_wLib wKw rfl rfl)
    (by decide) (by decide)⟩

/-- C2: when the invoked implementation raises after all requested session
and context switches succeeded, the engine restores the previously recorded
session and context state and re-raises that very error — same kind, same
message, exactly one error surfacing, delivered on the restored state. -/
theorem c2_reraise_after_restore (kw : Keyword) (args : List Val)
    (kwargs : List (String × Val)) (st : LibState)
    (hcs : CanonicalSetup kw) (hwf : WfState kw st)
    (hkn : (kwargs.map Prod.fst).Nodup)
    (st₁ st₂ : LibState) (k₁ k₂ : List (String × Val))
    (accS : List ((String × String) × Nat)) (accC : List (String × String))
    (hph1 : switchSessions kw.lib kw.lib.sessionHandlers kwargs st [] =
      (st₁, .ok (k₁, none, accS)))
    (hph2 : switchContexts kw.lib kw.contextHandlers k₁ st₁ [] =
      (st₂, .ok (k₂, none, accC)))
    (e : Err)
    (hdp : dispatchPhase kw st₂ args k₂ = .error e) :
    keywordCall kw args kwargs st = (st, .error e) := by
  rw [keywordCall_canonical_restores kw args kwargs st hcs hwf hkn
    st₁ st₂ k₁ k₂ accS accC hph1 hph2, hdp]

/-- Witness for C2: the raising fixture call switches session and context,
then re-raises the implementation's ValueError on the restored state. -/
theorem c2_witness :
    keywordCall wKwBad [] wKwargs wSt = (wSt, Except.error ⟨"ValueError", "boom"⟩) :=
  c2_reraise_after_restore wKwBad [] wKwargs wSt
    (canonicalSetup_wLib wKwBad rfl rfl) (wfState_wLib wKwBad rfl rfl)
    (by decide)
    ⟨[("connection", 2)], [("connections", [("A", 1), ("B", 2)])], [("mode", "normal")]⟩
    ⟨[("connection", 2)], [("connections", [("A", 1), ("B", 2)])], [("mode", "special")]⟩
    [("mode", Val.str "special")] []
    [(("connection", "connections"), 1)] [("mode", "normal")]
    (by decide) (by decide) ⟨"ValueError", "boom"⟩ (by decide)
